import Mathlib

/-!
Reloj_Alarma_P1_KS: clock / alarm main loop.

Shallow embedding of the loop variables of `Reloj_Alarma_P1_KS`
(`Parcial1_Display/Src/Reloj_Alarma_P1_KS.c`), of the blocks of the
`while(1)` body that read or write them, of the display block, and of the
button and keypad readers.

Machine integers are natural numbers; `uint8_t` increments are taken
`% 256`, the `uint16_t` increment `% 65536`.  A `char` key is its code.
The values returned by `button_pressed_event()` and
`keypad_getkey_press_release_4x4()` are inputs of one loop iteration; the
readers themselves take the samples of `GPIOA->IDR` as input.  Port registers
are natural numbers with the bitwise operations of the source.
-/

namespace RelojAlarma

/-- Menu mode, the enum `Mode_t`. -/
inductive Mode_t where
  | MODE_RUN
  | MODE_SET_TIME_HOUR
  | MODE_SET_TIME_MIN
  | MODE_SET_ALARM_HOUR
  | MODE_SET_ALARM_MIN
  deriving DecidableEq, Repr, Inhabited

open Mode_t

/-- Local variables of `Reloj_Alarma_P1_KS` that live across loop iterations. -/
structure LoopVars where
  horas : Nat
  minutos : Nat
  segundos : Nat
  alarm_h : Nat
  alarm_m : Nat
  alarm_enabled : Nat
  alarm_latched : Nat
  fsm : Nat
  refresh_counter : Nat
  mode : Mode_t
  deriving DecidableEq, Repr

/-- Values of the locals on entry to `while(1)` (lines 229-242). -/
def initVars : LoopVars :=
  { horas := 12, minutos := 0, segundos := 0,
    alarm_h := 6, alarm_m := 30, alarm_enabled := 1, alarm_latched := 0,
    fsm := 0, refresh_counter := 0, mode := MODE_RUN }

/-- Character codes of the keys the menu reacts to. -/
abbrev KEY_NONE : Nat := 0
/-- Code of `'1'`. -/
abbrev KEY_1 : Nat := 49
/-- Code of `'#'`. -/
abbrev KEY_HASH : Nat := 35
/-- Code of `'*'`. -/
abbrev KEY_STAR : Nat := 42
/-- Code of `'2'`. -/
abbrev KEY_2 : Nat := 50
/-- Code of `'8'`. -/
abbrev KEY_8 : Nat := 56
/-- Code of `'0'`. -/
abbrev KEY_0 : Nat := 48

/-- Lines 247-251: the menu reaction to the value `ev` returned by
`button_pressed_event()`. -/
def buttonStep (ev : Nat) (v : LoopVars) : LoopVars :=
  if ev ≠ 0 then
    if v.mode = MODE_RUN then { v with mode := MODE_SET_TIME_HOUR }
    else if v.mode = MODE_SET_TIME_HOUR then { v with mode := MODE_SET_TIME_MIN }
    else if v.mode = MODE_SET_TIME_MIN then { v with mode := MODE_SET_TIME_HOUR }
    else v
  else v

/-- Lines 257-260: key `'1'` in run mode opens the alarm menu and clears `k`.
Returns the variables and the value of `k` afterwards. -/
def alarmEntry (k : Nat) (v : LoopVars) : LoopVars × Nat :=
  if v.mode = MODE_RUN ∧ k = KEY_1 then ({ v with mode := MODE_SET_ALARM_HOUR }, 0)
  else (v, k)

/-- Lines 263-287: the menus. -/
def menuStep (k : Nat) (v : LoopVars) : LoopVars :=
  if v.mode ≠ MODE_RUN ∧ k ≠ 0 then
    if k = KEY_HASH then
      if v.mode = MODE_SET_TIME_HOUR then { v with mode := MODE_SET_TIME_MIN }
      else if v.mode = MODE_SET_TIME_MIN then { v with mode := MODE_SET_TIME_HOUR }
      else if v.mode = MODE_SET_ALARM_HOUR then { v with mode := MODE_SET_ALARM_MIN }
      else if v.mode = MODE_SET_ALARM_MIN then { v with mode := MODE_SET_ALARM_HOUR }
      else v
    else if k = KEY_STAR then
      { v with mode := MODE_RUN, segundos := 0 }
    else if k = KEY_2 then
      if v.mode = MODE_SET_TIME_HOUR then { v with horas := (v.horas + 1) % 24 }
      else if v.mode = MODE_SET_TIME_MIN then { v with minutos := (v.minutos + 1) % 60 }
      else if v.mode = MODE_SET_ALARM_HOUR then { v with alarm_h := (v.alarm_h + 1) % 24 }
      else if v.mode = MODE_SET_ALARM_MIN then { v with alarm_m := (v.alarm_m + 1) % 60 }
      else v
    else if k = KEY_8 ∨ k = KEY_0 then
      if v.mode = MODE_SET_TIME_HOUR then
        { v with horas := if v.horas = 0 then 23 else v.horas - 1 }
      else if v.mode = MODE_SET_TIME_MIN then
        { v with minutos := if v.minutos = 0 then 59 else v.minutos - 1 }
      else if v.mode = MODE_SET_ALARM_HOUR then
        { v with alarm_h := if v.alarm_h = 0 then 23 else v.alarm_h - 1 }
      else if v.mode = MODE_SET_ALARM_MIN then
        { v with alarm_m := if v.alarm_m = 0 then 59 else v.alarm_m - 1 }
      else v
    else v
  else v

/-- Lines 256-287: the whole reaction to the key `k` returned by the keypad
scan. -/
def keyStep (k : Nat) (v : LoopVars) : LoopVars :=
  let r := alarmEntry k v
  menuStep r.2 r.1

/-- Lines 292-306: the alarm check.  The second component tells whether
`buzzer_tone_1s_2400Hz()` is called. -/
def alarmStep (v : LoopVars) : LoopVars × Bool :=
  if v.alarm_enabled ≠ 0 then
    if v.horas = v.alarm_h ∧ v.minutos = v.alarm_m then
      if v.alarm_latched = 0 then ({ v with alarm_latched := 1 }, true)
      else (v, false)
    else ({ v with alarm_latched := 0 }, false)
  else (v, false)

/-- Lines 358-362: advance the display cursor `fsm`. -/
def cursorStep (v : LoopVars) : LoopVars :=
  let f := (v.fsm + 1) % 256
  if f ≥ 8 then { v with fsm := 0, refresh_counter := (v.refresh_counter + 1) % 65536 }
  else { v with fsm := f }

/-- Lines 368-377: the clock advances by one second. -/
def advanceSecond (v : LoopVars) : LoopVars :=
  let s := (v.segundos + 1) % 256
  if s ≥ 60 then
    let m := (v.minutos + 1) % 256
    if m ≥ 60 then
      let h := (v.horas + 1) % 256
      if h ≥ 24 then { v with segundos := 0, minutos := 0, horas := 0 }
      else { v with segundos := 0, minutos := 0, horas := h }
    else { v with segundos := 0, minutos := m }
  else { v with segundos := s }

/-- Lines 365-378: the coarse one-second timer. -/
def secondStep (v : LoopVars) : LoopVars :=
  if v.refresh_counter ≥ 42 then advanceSecond { v with refresh_counter := 0 }
  else v

/-- One pass of the `while(1)` body (lines 246-378) on the loop variables,
given the button event `ev` and the key `k` of this pass.  The display block
(lines 311-356) writes only `digits`, the output ports and `blink`, none of
which is read back.  The flag tells whether the buzzer tone was played. -/
def loopIter (ev k : Nat) (v : LoopVars) : LoopVars × Bool :=
  let a := alarmStep (keyStep k (buttonStep ev v))
  (secondStep (cursorStep a.1), a.2)

/-- Loop variables after the passes fed with the inputs `ins` (button event,
key), first pass first. -/
def runLoop : List (Nat × Nat) → LoopVars → LoopVars
  | [], v => v
  | (ev, k) :: ins, v => runLoop ins (loopIter ev k v).1

/-- Loop variables after `n` passes without button event or key. -/
def idleRun : Nat → LoopVars → LoopVars
  | 0, v => v
  | n + 1, v => idleRun n (loopIter 0 KEY_NONE v).1

/-- Whether pass number `n` (counted from 0) of an idle run plays the tone. -/
def idleTone (n : Nat) (v : LoopVars) : Bool :=
  (loopIter 0 KEY_NONE (idleRun n v)).2

/-- Seconds since midnight shown by the clock. -/
def secondsOfDay (v : LoopVars) : Nat :=
  v.horas * 3600 + v.minutos * 60 + v.segundos

/-- Every loop variable with a range is inside it. -/
def InRange (v : LoopVars) : Prop :=
  v.horas < 24 ∧ v.minutos < 60 ∧ v.segundos < 60 ∧ v.alarm_h < 24 ∧ v.alarm_m < 60 ∧
    v.fsm < 8 ∧ v.refresh_counter < 42

instance (v : LoopVars) : Decidable (InRange v) := by
  unfold InRange; infer_instance

/-- The modes the button can lead to from run mode. -/
def TimeFamily (md : Mode_t) : Prop :=
  md = MODE_RUN ∨ md = MODE_SET_TIME_HOUR ∨ md = MODE_SET_TIME_MIN

/-- Run mode at 12:00:05, every other variable as on entry to the loop. -/
def runAtFive : LoopVars := { initVars with segundos := 5 }

/-- Run mode at 06:29:59 with alarm 06:30 enabled and the latch clear, cursor
`f` and refresh counter `r`. -/
def alarmStart (f r : Nat) : LoopVars :=
  { horas := 6, minutos := 29, segundos := 59, alarm_h := 6, alarm_m := 30,
    alarm_enabled := 1, alarm_latched := 0, fsm := f, refresh_counter := r, mode := MODE_RUN }

/-- The clock reads `h:m:s`. -/
def readsTime (v : LoopVars) (h m s : Nat) : Prop :=
  v.horas = h ∧ v.minutos = m ∧ v.segundos = s

/-- Closed form used in the proofs about idle runs from `alarmStart`: the loop
variables when `t` passes have gone by since cursor 0, refresh counter 0 at
06:29:59 (336 passes make one second), for `t` up to the pass that reaches
06:31:00. -/
def idleClosed (t : Nat) : LoopVars :=
  { horas := 6,
    minutos := if t / 336 = 0 then 29 else if t / 336 ≤ 60 then 30 else 31,
    segundos := if t / 336 = 0 then 59 else if t / 336 ≤ 60 then t / 336 - 1 else 0,
    alarm_h := 6, alarm_m := 30, alarm_enabled := 1,
    alarm_latched := if t ≤ 336 then 0 else if t ≤ 61 * 336 then 1 else 0,
    fsm := t % 8, refresh_counter := (t / 8) % 42, mode := MODE_RUN }

/-! Display block, lines 311-354. -/

/-- Lines 84-99: seven-segment pattern of a digit value (`decoder`). -/
def decoder (v : Nat) : Nat :=
  match v with
  | 0 => 0x3F
  | 1 => 0x06
  | 2 => 0x5B
  | 3 => 0x4F
  | 4 => 0x66
  | 5 => 0x6D
  | 6 => 0x7D
  | 7 => 0x07
  | 8 => 0x7F
  | 9 => 0x6F
  | _ => 0x00

/-- Segments (a = 0, b = 1, ..., g = 6) lit for each decimal digit in the
standard seven-segment table; the table the text of the specification refers
to, for comparison with `decoder`. -/
def standardSegments : Nat → List Nat
  | 0 => [0, 1, 2, 3, 4, 5]
  | 1 => [1, 2]
  | 2 => [0, 1, 3, 4, 6]
  | 3 => [0, 1, 2, 3, 6]
  | 4 => [1, 2, 5, 6]
  | 5 => [0, 2, 3, 5, 6]
  | 6 => [0, 2, 3, 4, 5, 6]
  | 7 => [0, 1, 2]
  | 8 => [0, 1, 2, 3, 4, 5, 6]
  | 9 => [0, 1, 2, 3, 5, 6]
  | _ => []

/-- Bit pattern with segment a on bit 0 through segment g on bit 6. -/
def segmentBits (segs : List Nat) : Nat :=
  (segs.map fun i => 2 ^ i).sum

/-- Lines 311-327: the array `digits` computed in a pass. -/
def digitsOf (v : LoopVars) : List Nat :=
  let show_h :=
    if v.mode = MODE_SET_ALARM_HOUR ∨ v.mode = MODE_SET_ALARM_MIN then v.alarm_h else v.horas
  let show_m :=
    if v.mode = MODE_SET_ALARM_HOUR ∨ v.mode = MODE_SET_ALARM_MIN then v.alarm_m else v.minutos
  [show_m / 10, show_m % 10, v.segundos / 10, v.segundos % 10, 10, 10,
   show_h / 10, show_h % 10]

/-- Line 201: port C pin of each digit position (`digit_pins`). -/
def digit_pins : List Nat := [5, 6, 8, 9, 0, 1, 2, 3]

/-- The statement `GPIOC->ODR |= (1u<<digit_pins[i])` on the register value. -/
def digitOff (odr i : Nat) : Nat :=
  odr ||| (1 <<< digit_pins.getD i 0)

/-- The statement `GPIOC->ODR &= ~(1u<<digit_pins[i])` on the 32-bit register
value. -/
def digitOn (odr i : Nat) : Nat :=
  odr &&& (0xFFFFFFFF ^^^ (1 <<< digit_pins.getD i 0))

/-- Lines 330-331: the loop that switches all eight digits off. -/
def allDigitsOff (odr : Nat) : Nat :=
  (List.range 8).foldl digitOff odr

/-- Lines 337-340: the blink flag. -/
def blinkOf (v : LoopVars) : Nat :=
  if v.mode ≠ MODE_RUN then (if v.refresh_counter % 20 < 10 then 1 else 0) else 0

/-- Lines 330-354 on `GPIOC->ODR`: all digits off, then the digit under the
cursor `fsm` switched on or left off. -/
def displayEnable (v : LoopVars) (odr : Nat) : Nat :=
  let o := allDigitsOff odr
  let blink := blinkOf v
  if v.mode = MODE_RUN then digitOn o v.fsm
  else if (v.mode = MODE_SET_TIME_HOUR ∨ v.mode = MODE_SET_ALARM_HOUR) ∧
      (v.fsm = 6 ∨ v.fsm = 7) then
    if blink = 0 then digitOn o v.fsm else o
  else if (v.mode = MODE_SET_TIME_MIN ∨ v.mode = MODE_SET_ALARM_MIN) ∧
      (v.fsm = 0 ∨ v.fsm = 1) then
    if blink = 0 then digitOn o v.fsm else o
  else digitOn o v.fsm

/-- The enable line of digit position `i` is active (driven low) in the
register value `odr`. -/
def lineActive (odr i : Nat) : Prop :=
  Nat.testBit odr (digit_pins.getD i 0) = false

instance (odr i : Nat) : Decidable (lineActive odr i) := by
  unfold lineActive; infer_instance

/-- SetTimeHour with the cursor on digit 6 and refresh counter 10, every other
variable as on entry to the loop. -/
def hourEditAtTen : LoopVars :=
  { initVars with mode := MODE_SET_TIME_HOUR, fsm := 6, refresh_counter := 10 }

/-- SetTimeHour with the cursor on digit 6 and refresh counter 0. -/
def hourEditAtZero : LoopVars :=
  { initVars with mode := MODE_SET_TIME_HOUR, fsm := 6, refresh_counter := 0 }

/-! Button and keypad readers, lines 110-164.  A read of `GPIOA->IDR` takes
the next sample of the input register. -/

/-- Line 113 and 117: `(GPIOA->IDR & (1u<<0)) ? 1 : 0` on the sample `idr`. -/
def buttonLevel (idr : Nat) : Nat :=
  if idr &&& (1 <<< 0) ≠ 0 then 1 else 0

/-- Lines 110-125: `button_pressed_event` as a step on the static `last`, with
`s1` the sample read on entry and `s2` the sample read after `delay_ms(20)`
(read only when `last == 1` and the first level is 0).  Returns the value
returned and the new `last`. -/
def button_pressed_event (last s1 s2 : Nat) : Nat × Nat :=
  let now := buttonLevel s1
  if last = 1 ∧ now = 0 then
    let now2 := buttonLevel s2
    if now2 = 0 then (1, 0)
    else if now2 = 1 then (0, 1) else (0, last)
  else if now = 1 then (0, 1) else (0, last)

/-- The values returned by successive polls fed with the sample pairs `ss`,
starting from the stored level `last`. -/
def buttonPolls : Nat → List (Nat × Nat) → List Nat
  | _, [] => []
  | last, (s1, s2) :: ss =>
    (button_pressed_event last s1 s2).1 :: buttonPolls (button_pressed_event last s1 s2).2 ss

/-- Line 73: port A pin of each keypad row (`row_pins`). -/
def row_pins : List Nat := [1, 2, 3, 4]

/-- Lines 76-81: `keymap_4x4`, the key symbols as character codes
('1','2','3','A' / '4','5','6','B' / '7','8','9','C' / '*','0','#','D'). -/
def keymap_4x4 : List (List Nat) :=
  [[49, 50, 51, 65], [52, 53, 54, 66], [55, 56, 57, 67], [42, 48, 35, 68]]

/-- The entry `keymap_4x4[r][c]`. -/
def keyAt (r c : Nat) : Nat :=
  (keymap_4x4.getD r []).getD c 0

/-- The test `(GPIOA->IDR & (1u<<row_pins[r])) == 0` on the sample `idr`. -/
def rowLow (idr r : Nat) : Bool :=
  idr &&& (1 <<< row_pins.getD r 0) == 0

/-- The `for` loop of `keypad_any_row_pressed` with `n` rows left, next row
`r`, next sample `pos` of the stream `s`.  Returns the value returned and the
position of the next unread sample. -/
def anyRowLoop (s : Nat → Nat) : Nat → Nat → Nat → Nat × Nat
  | 0, _, pos => (0, pos)
  | n + 1, r, pos =>
    if rowLow (s pos) r then (1, pos + 1) else anyRowLoop s n (r + 1) (pos + 1)

/-- Lines 128-134: `keypad_any_row_pressed`, reading the samples of `s` from
`pos` on. -/
def keypad_any_row_pressed (s : Nat → Nat) (pos : Nat) : Nat × Nat :=
  anyRowLoop s 4 0 pos

/-- Lines 154-156: the loop `while(keypad_any_row_pressed())`, at most `fuel`
evaluations of the condition.  Returns the position of the next unread sample
when the loop ends, `none` when the fuel runs out first. -/
def waitRelease (s : Nat → Nat) : Nat → Nat → Option Nat
  | 0, _ => none
  | fuel + 1, pos =>
    if (keypad_any_row_pressed s pos).1 ≠ 0 then
      waitRelease s fuel (keypad_any_row_pressed s pos).2
    else some (keypad_any_row_pressed s pos).2

/-- Lines 145-161: the row loop for column `c` with `n` rows left, next row
`r`.  `some (some key, pos)`: the function returned `key`; `some (none, pos)`:
the loop ended without a return; `none`: the wait for release ran out of
fuel. -/
def rowLoop (fuel : Nat) (s : Nat → Nat) (c : Nat) : Nat → Nat → Nat → Option (Option Nat × Nat)
  | 0, _, pos => some (none, pos)
  | n + 1, r, pos =>
    if rowLow (s pos) r then
      match waitRelease s fuel (pos + 1) with
      | none => none
      | some p => some (some (keyAt r c), p)
    else rowLoop fuel s c n (r + 1) (pos + 1)

/-- Lines 139-162: the column loop with `n` columns left, next column `c`.
Driving the columns (lines 141-143) writes `GPIOA->ODR` only; what the rows
read afterwards is the content of the stream. -/
def colLoop (fuel : Nat) (s : Nat → Nat) : Nat → Nat → Nat → Option (Option Nat × Nat)
  | 0, _, pos => some (none, pos)
  | n + 1, c, pos =>
    match rowLoop fuel s c 4 0 pos with
    | none => none
    | some (some key, p) => some (some key, p)
    | some (none, p) => colLoop fuel s n (c + 1) p

/-- Lines 137-164: `keypad_getkey_press_release_4x4` reading the samples of `s`
from `pos` on.  Returns the key (0: none) and the position of the next unread
sample, `none` when the wait for release ran out of fuel. -/
def keypad_getkey_press_release_4x4 (fuel : Nat) (s : Nat → Nat) (pos : Nat) :
    Option (Nat × Nat) :=
  match colLoop fuel s 4 0 pos with
  | none => none
  | some (some key, p) => some (key, p)
  | some (none, p) => some (0, p)

/-- Sample stream of a key press seen at read 10 only (column 2, row 2): 0x16
(row 2, PA3, low) there, 0x1E (all four rows high) at every other read. -/
def pressStream (i : Nat) : Nat :=
  if i = 10 then 0x16 else 0x1E

/-- Sample stream in which row 0 (PA1) reads low on the first read only: 0x1C
first, then 0x1E (all four rows high) for ever. -/
def bounceStream (i : Nat) : Nat :=
  if i = 0 then 0x1C else 0x1E

/-! ## The one-second advance -/

/-- C1: for h < 24, m < 60, s < 60 the one-second advance taken when the
refresh counter has reached 42 gives an in-range time whose second of the day
is the old one plus one modulo 86400, and 23:59:59 becomes 00:00:00. -/
theorem advance_second_correct (v : LoopVars) (hh : v.horas < 24) (hm : v.minutos < 60)
    (hs : v.segundos < 60) (hr : 42 ≤ v.refresh_counter) :
    (secondStep v).horas < 24 ∧ (secondStep v).minutos < 60 ∧
    (secondStep v).segundos < 60 ∧
    secondsOfDay (secondStep v) = (secondsOfDay v + 1) % 86400 ∧
    (v.horas = 23 → v.minutos = 59 → v.segundos = 59 →
      (secondStep v).horas = 0 ∧ (secondStep v).minutos = 0 ∧
      (secondStep v).segundos = 0) := by
  simp only [secondStep, advanceSecond, secondsOfDay, ge_iff_le, hr, if_true]
  split_ifs <;> simp only [] <;>
    exact ⟨by omega, by omega, by omega, by omega, fun h1 h2 h3 => by
      refine ⟨?_, ?_, ?_⟩ <;> first | trivial | omega⟩

/-- Instance of C1 at 23:59:59 with the refresh counter at 42. -/
theorem advance_second_correct_witness :
    secondsOfDay (secondStep { initVars with horas := 23, minutos := 59, segundos := 59,
                                              refresh_counter := 42 }) =
      (secondsOfDay { initVars with horas := 23, minutos := 59, segundos := 59,
                                    refresh_counter := 42 } + 1) % 86400 :=
  (advance_second_correct
    { initVars with horas := 23, minutos := 59, segundos := 59, refresh_counter := 42 }
    (by decide) (by decide) (by decide) (by decide)).2.2.2.1

/-! ## Range invariant of the loop -/

theorem buttonStep_inRange (ev : Nat) (v : LoopVars) (h : InRange v) :
    InRange (buttonStep ev v) := by
  unfold buttonStep
  split_ifs <;> exact h

theorem alarmEntry_inRange (k : Nat) (v : LoopVars) (h : InRange v) :
    InRange (alarmEntry k v).1 := by
  unfold alarmEntry
  split_ifs <;> exact h

theorem menuStep_inRange (k : Nat) (v : LoopVars) (h : InRange v) :
    InRange (menuStep k v) := by
  obtain ⟨h, m, s, ah, am, en, la, f, rc, md⟩ := v
  obtain ⟨h1, h2, h3, h4, h5, h6, h7⟩ := h
  simp only [] at h1 h2 h3 h4 h5 h6 h7
  cases md <;> simp only [menuStep, InRange, ne_eq, not_true_eq_false, false_and, if_false,
    reduceCtorEq, not_false_eq_true, true_and, if_true] <;>
    (try split_ifs) <;> refine ⟨?_, ?_, ?_, ?_, ?_, ?_, ?_⟩ <;> (try simp only []) <;> omega

theorem keyStep_inRange (k : Nat) (v : LoopVars) (h : InRange v) :
    InRange (keyStep k v) :=
  menuStep_inRange _ _ (alarmEntry_inRange k v h)

theorem alarmStep_inRange (v : LoopVars) (h : InRange v) :
    InRange (alarmStep v).1 := by
  unfold alarmStep
  split_ifs <;> exact h

theorem tail_inRange (v : LoopVars) (h : InRange v) :
    InRange (secondStep (cursorStep v)) := by
  obtain ⟨h, m, s, ah, am, en, la, f, rc, md⟩ := v
  obtain ⟨h1, h2, h3, h4, h5, h6, h7⟩ := h
  simp only [] at h1 h2 h3 h4 h5 h6 h7
  have hf : (f + 1) % 256 = f + 1 := by omega
  have hr : (rc + 1) % 65536 = rc + 1 := by omega
  simp only [cursorStep, hf, hr, ge_iff_le]
  by_cases hf8 : 8 ≤ f + 1
  · simp only [hf8, if_true, secondStep, ge_iff_le]
    by_cases hr42 : 42 ≤ rc + 1
    · simp only [hr42, if_true, advanceSecond, ge_iff_le]
      split_ifs <;> refine ⟨?_, ?_, ?_, ?_, ?_, ?_, ?_⟩ <;> simp only [] <;> omega
    · simp only [hr42, if_false]
      refine ⟨?_, ?_, ?_, ?_, ?_, ?_, ?_⟩ <;> simp only [] <;> omega
  · have hrc : ¬ 42 ≤ rc := by omega
    simp only [hf8, if_false, secondStep, ge_iff_le, hrc]
    refine ⟨?_, ?_, ?_, ?_, ?_, ?_, ?_⟩ <;> simp only [] <;> omega

theorem loopIter_inRange (ev k : Nat) (v : LoopVars) (h : InRange v) :
    InRange (loopIter ev k v).1 := by
  have h1 := buttonStep_inRange ev v h
  have h2 := keyStep_inRange k _ h1
  have h3 := alarmStep_inRange _ h2
  have h4 := tail_inRange _ h3
  simpa only [loopIter] using h4

theorem runLoop_inRange (ins : List (Nat × Nat)) :
    ∀ v : LoopVars, InRange v → InRange (runLoop ins v) := by
  induction ins with
  | nil => intro v h; exact h
  | cons i ins ih =>
    intro v h
    obtain ⟨ev, k⟩ := i
    exact ih _ (loopIter_inRange ev k v h)

/-- C2: the range predicate (hours < 24, minutes < 60, seconds < 60,
alarm_h < 24, alarm_m < 60, fsm < 8, refresh_counter < 42) holds of the initial
values, is kept by one loop pass for every mode, button event value and key
value, and so holds at the head of every pass of every run. -/
theorem inRange_invariant :
    InRange initVars ∧
    (∀ (ev k : Nat) (v : LoopVars), InRange v → InRange (loopIter ev k v).1) ∧
    (∀ ins : List (Nat × Nat), InRange (runLoop ins initVars)) :=
  ⟨by decide, loopIter_inRange, fun ins => runLoop_inRange ins initVars (by decide)⟩

/-- Instance of C2: the variables after one pass from the initial values with a
button event and key '2' are in range. -/
theorem inRange_invariant_witness :
    InRange initVars ∧ InRange (loopIter 1 KEY_2 initVars).1 :=
  ⟨by decide, inRange_invariant.2.1 1 KEY_2 initVars (by decide)⟩

/-! ## Keys in the edit modes -/

/-- C3: in each edit mode, for an in-range value v of the targeted field, key
'2' sets the field to (v + 1) mod N and keys '8' and '0' set it to
(v + N - 1) mod N, N = 24 for hours and 60 for minutes; the result is in range,
decrementing 0 gives N - 1 and incrementing N - 1 gives 0. -/
theorem key_inc_dec_modular (v : LoopVars) :
    (v.mode = MODE_SET_TIME_HOUR → v.horas < 24 →
      (keyStep KEY_2 v).horas = (v.horas + 1) % 24 ∧
      (keyStep KEY_8 v).horas = (v.horas + 24 - 1) % 24 ∧
      (keyStep KEY_0 v).horas = (v.horas + 24 - 1) % 24 ∧
      (keyStep KEY_2 v).horas < 24 ∧ (keyStep KEY_8 v).horas < 24 ∧
      (keyStep KEY_0 v).horas < 24 ∧
      (v.horas = 0 → (keyStep KEY_8 v).horas = 23 ∧ (keyStep KEY_0 v).horas = 23) ∧
      (v.horas = 23 → (keyStep KEY_2 v).horas = 0)) ∧
    (v.mode = MODE_SET_TIME_MIN → v.minutos < 60 →
      (keyStep KEY_2 v).minutos = (v.minutos + 1) % 60 ∧
      (keyStep KEY_8 v).minutos = (v.minutos + 60 - 1) % 60 ∧
      (keyStep KEY_0 v).minutos = (v.minutos + 60 - 1) % 60 ∧
      (keyStep KEY_2 v).minutos < 60 ∧ (keyStep KEY_8 v).minutos < 60 ∧
      (keyStep KEY_0 v).minutos < 60 ∧
      (v.minutos = 0 → (keyStep KEY_8 v).minutos = 59 ∧ (keyStep KEY_0 v).minutos = 59) ∧
      (v.minutos = 59 → (keyStep KEY_2 v).minutos = 0)) ∧
    (v.mode = MODE_SET_ALARM_HOUR → v.alarm_h < 24 →
      (keyStep KEY_2 v).alarm_h = (v.alarm_h + 1) % 24 ∧
      (keyStep KEY_8 v).alarm_h = (v.alarm_h + 24 - 1) % 24 ∧
      (keyStep KEY_0 v).alarm_h = (v.alarm_h + 24 - 1) % 24 ∧
      (keyStep KEY_2 v).alarm_h < 24 ∧ (keyStep KEY_8 v).alarm_h < 24 ∧
      (keyStep KEY_0 v).alarm_h < 24 ∧
      (v.alarm_h = 0 → (keyStep KEY_8 v).alarm_h = 23 ∧ (keyStep KEY_0 v).alarm_h = 23) ∧
      (v.alarm_h = 23 → (keyStep KEY_2 v).alarm_h = 0)) ∧
    (v.mode = MODE_SET_ALARM_MIN → v.alarm_m < 60 →
      (keyStep KEY_2 v).alarm_m = (v.alarm_m + 1) % 60 ∧
      (keyStep KEY_8 v).alarm_m = (v.alarm_m + 60 - 1) % 60 ∧
      (keyStep KEY_0 v).alarm_m = (v.alarm_m + 60 - 1) % 60 ∧
      (keyStep KEY_2 v).alarm_m < 60 ∧ (keyStep KEY_8 v).alarm_m < 60 ∧
      (keyStep KEY_0 v).alarm_m < 60 ∧
      (v.alarm_m = 0 → (keyStep KEY_8 v).alarm_m = 59 ∧ (keyStep KEY_0 v).alarm_m = 59) ∧
      (v.alarm_m = 59 → (keyStep KEY_2 v).alarm_m = 0)) := by
  obtain ⟨h, m, s, ah, am, en, la, f, rc, md⟩ := v
  refine ⟨?_, ?_, ?_, ?_⟩ <;> intro hm hlt <;> simp only [] at hm hlt <;> subst hm <;>
    simp [keyStep, alarmEntry, menuStep] <;> split_ifs <;> omega

/-- Instance of C3: in SetTimeHour at hour 0, key '8' gives hour 23. -/
theorem key_inc_dec_modular_witness :
    (keyStep KEY_8 { initVars with mode := MODE_SET_TIME_HOUR, horas := 0 }).horas = 23 :=
  (((key_inc_dec_modular { initVars with mode := MODE_SET_TIME_HOUR, horas := 0 }).1
    rfl (by decide)).2.2.2.2.2.2.1 rfl).1

/-! ## The button -/

theorem keyStep_none (v : LoopVars) : keyStep KEY_NONE v = v := by
  obtain ⟨h, m, s, ah, am, en, la, f, rc, md⟩ := v
  simp [keyStep, alarmEntry, menuStep]

theorem alarmStep_mode (v : LoopVars) : (alarmStep v).1.mode = v.mode := by
  unfold alarmStep
  split_ifs <;> rfl

theorem cursorStep_mode (v : LoopVars) : (cursorStep v).mode = v.mode := by
  simp only [cursorStep]
  split_ifs <;> rfl

theorem secondStep_mode (v : LoopVars) : (secondStep v).mode = v.mode := by
  simp only [secondStep, advanceSecond]
  split_ifs <;> rfl

theorem loopIter_mode (ev k : Nat) (v : LoopVars) :
    (loopIter ev k v).1.mode = (keyStep k (buttonStep ev v)).mode := by
  simp only [loopIter, secondStep_mode, cursorStep_mode, alarmStep_mode]

theorem buttonStep_timeFamily (ev : Nat) (v : LoopVars) (h : TimeFamily v.mode) :
    TimeFamily (buttonStep ev v).mode := by
  unfold buttonStep TimeFamily
  split_ifs <;> simp_all [TimeFamily]

theorem foldl_buttonStep_timeFamily (evs : List Nat) :
    ∀ v : LoopVars, TimeFamily v.mode →
      TimeFamily (evs.foldl (fun w ev => buttonStep ev w) v).mode := by
  induction evs with
  | nil => intro v h; exact h
  | cons ev evs ih => intro v h; exact ih _ (buttonStep_timeFamily ev v h)

theorem runLoop_noKey_timeFamily (evs : List Nat) :
    ∀ v : LoopVars, TimeFamily v.mode →
      TimeFamily (runLoop (evs.map fun ev => (ev, KEY_NONE)) v).mode := by
  induction evs with
  | nil => intro v h; exact h
  | cons ev evs ih =>
    intro v h
    refine ih _ ?_
    rw [loopIter_mode, keyStep_none]
    exact buttonStep_timeFamily ev v h

theorem timeFamily_not_alarm {md : Mode_t} (h : TimeFamily md) :
    md ≠ MODE_SET_ALARM_HOUR ∧ md ≠ MODE_SET_ALARM_MIN := by
  rcases h with h | h | h <;> subst h <;> exact ⟨by decide, by decide⟩

/-- C4: a button event maps Run to SetTimeHour, SetTimeHour to SetTimeMinute,
SetTimeMinute to SetTimeHour, leaves SetAlarmHour and SetAlarmMinute as they
are, and changes no time or alarm field; so from Run, after any finite sequence
of button events without key input (of button steps alone, or of whole loop
passes), the mode is neither SetAlarmHour nor SetAlarmMinute. -/
theorem button_cycles_time_modes :
    (∀ (ev : Nat) (v : LoopVars), ev ≠ 0 →
      (v.mode = MODE_RUN → (buttonStep ev v).mode = MODE_SET_TIME_HOUR) ∧
      (v.mode = MODE_SET_TIME_HOUR → (buttonStep ev v).mode = MODE_SET_TIME_MIN) ∧
      (v.mode = MODE_SET_TIME_MIN → (buttonStep ev v).mode = MODE_SET_TIME_HOUR) ∧
      (v.mode = MODE_SET_ALARM_HOUR → (buttonStep ev v).mode = MODE_SET_ALARM_HOUR) ∧
      (v.mode = MODE_SET_ALARM_MIN → (buttonStep ev v).mode = MODE_SET_ALARM_MIN) ∧
      (buttonStep ev v).horas = v.horas ∧ (buttonStep ev v).minutos = v.minutos ∧
      (buttonStep ev v).segundos = v.segundos ∧
      (buttonStep ev v).alarm_h = v.alarm_h ∧ (buttonStep ev v).alarm_m = v.alarm_m) ∧
    (∀ (evs : List Nat) (v : LoopVars), v.mode = MODE_RUN →
      (evs.foldl (fun w ev => buttonStep ev w) v).mode ≠ MODE_SET_ALARM_HOUR ∧
      (evs.foldl (fun w ev => buttonStep ev w) v).mode ≠ MODE_SET_ALARM_MIN) ∧
    (∀ (evs : List Nat) (v : LoopVars), v.mode = MODE_RUN →
      (runLoop (evs.map fun ev => (ev, KEY_NONE)) v).mode ≠ MODE_SET_ALARM_HOUR ∧
      (runLoop (evs.map fun ev => (ev, KEY_NONE)) v).mode ≠ MODE_SET_ALARM_MIN) := by
  refine ⟨?_, ?_, ?_⟩
  · intro ev v hev
    obtain ⟨h, m, s, ah, am, en, la, f, rc, md⟩ := v
    cases md <;> simp [buttonStep, hev]
  · intro evs v hv
    exact timeFamily_not_alarm (foldl_buttonStep_timeFamily evs v (Or.inl hv))
  · intro evs v hv
    exact timeFamily_not_alarm (runLoop_noKey_timeFamily evs v (Or.inl hv))

/-- Instance of C4: three button events from the initial values end in
SetTimeHour. -/
theorem button_cycles_time_modes_witness :
    (runLoop ([1, 1, 1].map fun ev => (ev, KEY_NONE)) initVars).mode ≠ MODE_SET_ALARM_HOUR ∧
    (runLoop ([1, 1, 1].map fun ev => (ev, KEY_NONE)) initVars).mode ≠ MODE_SET_ALARM_MIN :=
  button_cycles_time_modes.2.2 [1, 1, 1] initVars rfl

/-! ## Keys '*', '1' and '#' -/

/-- C5, the claim as stated fails: in Run mode key '*' leaves the mode Run but
does not clear the seconds: from 12:00:05 they still read 5. -/
theorem star_key_run_keeps_seconds :
    runAtFive.mode = MODE_RUN ∧ (keyStep KEY_STAR runAtFive).mode = MODE_RUN ∧
    (keyStep KEY_STAR runAtFive).segundos = 5 ∧
    ¬ (∀ v : LoopVars, (keyStep KEY_STAR v).mode = MODE_RUN ∧
        (keyStep KEY_STAR v).segundos = 0) := by
  refine ⟨by decide, by decide, by decide, fun h => ?_⟩
  have h5 := (h runAtFive).2
  revert h5
  decide

/-- C5, amended: for every state key '*' ends in mode Run and leaves hours,
minutes, alarm hours and alarm minutes unchanged; seconds are 0 afterwards when
the step started in an edit mode, and unchanged when it started in Run. -/
theorem star_key_returns_to_run (v : LoopVars) :
    (keyStep KEY_STAR v).mode = MODE_RUN ∧
    (v.mode ≠ MODE_RUN → (keyStep KEY_STAR v).segundos = 0) ∧
    (v.mode = MODE_RUN → (keyStep KEY_STAR v).segundos = v.segundos) ∧
    (keyStep KEY_STAR v).horas = v.horas ∧ (keyStep KEY_STAR v).minutos = v.minutos ∧
    (keyStep KEY_STAR v).alarm_h = v.alarm_h ∧ (keyStep KEY_STAR v).alarm_m = v.alarm_m := by
  obtain ⟨h, m, s, ah, am, en, la, f, rc, md⟩ := v
  cases md <;> simp [keyStep, alarmEntry, menuStep]

/-- Instance of the amended C5: from SetTimeMinute at 12:00:05 key '*' gives
seconds 0. -/
theorem star_key_returns_to_run_witness :
    (keyStep KEY_STAR { runAtFive with mode := MODE_SET_TIME_MIN }).segundos = 0 :=
  (star_key_returns_to_run { runAtFive with mode := MODE_SET_TIME_MIN }).2.1 (by decide)

/-- C6: in Run mode every key value other than '1' (also '*', '#', '2', '8',
'0' and no key) leaves all loop variables as they are, so mode, hours, minutes,
seconds, alarm hours and alarm minutes are unchanged. -/
theorem run_mode_ignores_keys (v : LoopVars) (k : Nat) (hm : v.mode = MODE_RUN)
    (hk : k ≠ KEY_1) :
    keyStep k v = v ∧
    (keyStep k v).mode = v.mode ∧ (keyStep k v).horas = v.horas ∧
    (keyStep k v).minutos = v.minutos ∧ (keyStep k v).segundos = v.segundos ∧
    (keyStep k v).alarm_h = v.alarm_h ∧ (keyStep k v).alarm_m = v.alarm_m := by
  obtain ⟨h, m, s, ah, am, en, la, f, rc, md⟩ := v
  simp only [] at hm
  subst hm
  have e : keyStep k ⟨h, m, s, ah, am, en, la, f, rc, MODE_RUN⟩ =
      ⟨h, m, s, ah, am, en, la, f, rc, MODE_RUN⟩ := by
    simp [keyStep, alarmEntry, menuStep, hk]
  simp [e]

/-- Instance of C6: key '*' at 12:00:05 in Run mode changes nothing. -/
theorem run_mode_ignores_keys_witness : keyStep KEY_STAR runAtFive = runAtFive :=
  (run_mode_ignores_keys runAtFive KEY_STAR rfl (by decide)).1

/-- C7: key '1' changes the mode only in Run, where it gives SetAlarmHour; in
the four edit modes the mode stays; in all five modes hours, minutes, seconds,
alarm hours and alarm minutes are unchanged. -/
theorem key_one_enters_alarm_menu (v : LoopVars) :
    (v.mode = MODE_RUN → (keyStep KEY_1 v).mode = MODE_SET_ALARM_HOUR) ∧
    (v.mode ≠ MODE_RUN → (keyStep KEY_1 v).mode = v.mode) ∧
    (keyStep KEY_1 v).horas = v.horas ∧ (keyStep KEY_1 v).minutos = v.minutos ∧
    (keyStep KEY_1 v).segundos = v.segundos ∧
    (keyStep KEY_1 v).alarm_h = v.alarm_h ∧ (keyStep KEY_1 v).alarm_m = v.alarm_m := by
  obtain ⟨h, m, s, ah, am, en, la, f, rc, md⟩ := v
  cases md <;> simp [keyStep, alarmEntry, menuStep]

/-- Instance of C7: key '1' on the initial values opens SetAlarmHour. -/
theorem key_one_enters_alarm_menu_witness :
    (keyStep KEY_1 initVars).mode = MODE_SET_ALARM_HOUR :=
  (key_one_enters_alarm_menu initVars).1 rfl

/-- C8: in the edit modes key '#' swaps SetTimeHour with SetTimeMinute and
SetAlarmHour with SetAlarmMinute, changes no time or alarm field, and applied
twice gives back the original mode. -/
theorem hash_key_swaps_field (v : LoopVars) :
    (v.mode = MODE_SET_TIME_HOUR → (keyStep KEY_HASH v).mode = MODE_SET_TIME_MIN) ∧
    (v.mode = MODE_SET_TIME_MIN → (keyStep KEY_HASH v).mode = MODE_SET_TIME_HOUR) ∧
    (v.mode = MODE_SET_ALARM_HOUR → (keyStep KEY_HASH v).mode = MODE_SET_ALARM_MIN) ∧
    (v.mode = MODE_SET_ALARM_MIN → (keyStep KEY_HASH v).mode = MODE_SET_ALARM_HOUR) ∧
    (keyStep KEY_HASH v).horas = v.horas ∧ (keyStep KEY_HASH v).minutos = v.minutos ∧
    (keyStep KEY_HASH v).segundos = v.segundos ∧
    (keyStep KEY_HASH v).alarm_h = v.alarm_h ∧ (keyStep KEY_HASH v).alarm_m = v.alarm_m ∧
    (keyStep KEY_HASH (keyStep KEY_HASH v)).mode = v.mode := by
  obtain ⟨h, m, s, ah, am, en, la, f, rc, md⟩ := v
  cases md <;> simp [keyStep, alarmEntry, menuStep]

/-- Instance of C8: key '#' in SetAlarmHour gives SetAlarmMinute. -/
theorem hash_key_swaps_field_witness :
    (keyStep KEY_HASH { initVars with mode := MODE_SET_ALARM_HOUR }).mode =
      MODE_SET_ALARM_MIN :=
  (hash_key_swaps_field { initVars with mode := MODE_SET_ALARM_HOUR }).2.2.1 rfl

/-! ## The alarm check -/

/-- C9: with the alarm enabled, the alarm check plays the tone exactly when
hours == alarm_h, minutes == alarm_m and the latch was clear; afterwards the
latch is set exactly when hours == alarm_h and minutes == alarm_m; no time,
alarm or mode variable changes. -/
theorem alarm_check_latches (v : LoopVars) (hen : v.alarm_enabled ≠ 0) :
    ((alarmStep v).2 = true ↔
      (v.horas = v.alarm_h ∧ v.minutos = v.alarm_m ∧ v.alarm_latched = 0)) ∧
    ((alarmStep v).1.alarm_latched ≠ 0 ↔ (v.horas = v.alarm_h ∧ v.minutos = v.alarm_m)) ∧
    (alarmStep v).1.horas = v.horas ∧ (alarmStep v).1.minutos = v.minutos ∧
    (alarmStep v).1.segundos = v.segundos ∧
    (alarmStep v).1.alarm_h = v.alarm_h ∧ (alarmStep v).1.alarm_m = v.alarm_m ∧
    (alarmStep v).1.alarm_enabled = v.alarm_enabled ∧ (alarmStep v).1.mode = v.mode := by
  obtain ⟨h, m, s, ah, am, en, la, f, rc, md⟩ := v
  simp only [] at hen
  simp only [alarmStep, hen, ne_eq, not_false_eq_true, if_true]
  by_cases hmatch : h = ah ∧ m = am
  · by_cases hl : la = 0
    · simp [hmatch, hl]
    · simp [hmatch, hl]
  · simp only [hmatch, if_false]
    simp
    tauto

/-- Instance of C9: at 06:30:00 with alarm 06:30 enabled and the latch clear
the tone is played. -/
theorem alarm_check_latches_witness :
    (alarmStep { initVars with horas := 6, minutos := 30 }).2 = true :=
  (alarm_check_latches { initVars with horas := 6, minutos := 30 } (by decide)).1.2
    ⟨rfl, rfl, rfl⟩

/-! ## The alarm fires once per matching minute -/

theorem loopIter_idle (v : LoopVars) :
    loopIter 0 KEY_NONE v = (secondStep (cursorStep (alarmStep v).1), (alarmStep v).2) := by
  simp only [loopIter, keyStep_none, buttonStep, ne_eq, not_true_eq_false, if_false]

theorem tail_phase (h m s ah am en la : Nat) (md : Mode_t) (t : Nat) :
    secondStep (cursorStep ⟨h, m, s, ah, am, en, la, t % 8, (t / 8) % 42, md⟩) =
      if (t + 1) % 336 = 0 then advanceSecond ⟨h, m, s, ah, am, en, la, 0, 0, md⟩
      else ⟨h, m, s, ah, am, en, la, (t + 1) % 8, ((t + 1) / 8) % 42, md⟩ := by
  have hf : (t % 8 + 1) % 256 = t % 8 + 1 := by omega
  have hr : ((t / 8) % 42 + 1) % 65536 = (t / 8) % 42 + 1 := by omega
  by_cases h8 : t % 8 = 7
  · have c1 : 8 ≤ t % 8 + 1 := by omega
    by_cases h42 : (t / 8) % 42 = 41
    · have c2 : (t + 1) % 336 = 0 := by omega
      have c3 : 42 ≤ (t / 8) % 42 + 1 := by omega
      simp only [cursorStep, secondStep, hf, hr, ge_iff_le, c1, c2, c3, if_true]
    · have c2 : ¬ (t + 1) % 336 = 0 := by omega
      have c3 : ¬ 42 ≤ (t / 8) % 42 + 1 := by omega
      have e1 : (t + 1) % 8 = 0 := by omega
      have e2 : ((t + 1) / 8) % 42 = (t / 8) % 42 + 1 := by omega
      simp only [cursorStep, secondStep, hf, hr, ge_iff_le, c1, c2, c3, if_true, if_false, e1, e2]
  · have c1 : ¬ 8 ≤ t % 8 + 1 := by omega
    have c2 : ¬ (t + 1) % 336 = 0 := by omega
    have c3 : ¬ 42 ≤ (t / 8) % 42 := by omega
    have e1 : (t + 1) % 8 = t % 8 + 1 := by omega
    have e2 : ((t + 1) / 8) % 42 = (t / 8) % 42 := by omega
    simp only [cursorStep, secondStep, hf, ge_iff_le, c1, c2, c3, if_false, e1, e2]

theorem idleClosed_eq (t M S L : Nat)
    (hM : M = if t / 336 = 0 then 29 else if t / 336 ≤ 60 then 30 else 31)
    (hS : S = if t / 336 = 0 then 59 else if t / 336 ≤ 60 then t / 336 - 1 else 0)
    (hL : L = if t ≤ 336 then 0 else if t ≤ 61 * 336 then 1 else 0) :
    idleClosed t = ⟨6, M, S, 6, 30, 1, L, t % 8, (t / 8) % 42, MODE_RUN⟩ := by
  subst hM hS hL
  rfl

theorem idle_step (t : Nat) (ht : t < 61 * 336) :
    loopIter 0 KEY_NONE (idleClosed t) = (idleClosed (t + 1), decide (t = 336)) := by
  rw [loopIter_idle]
  by_cases ha : t < 336
  · -- before the alarm minute
    have e : idleClosed t = ⟨6, 29, 59, 6, 30, 1, 0, t % 8, (t / 8) % 42, MODE_RUN⟩ :=
      idleClosed_eq t 29 59 0 (by split_ifs <;> omega) (by split_ifs <;> omega)
        (by split_ifs <;> omega)
    have ea : alarmStep ⟨6, 29, 59, 6, 30, 1, 0, t % 8, (t / 8) % 42, MODE_RUN⟩ =
        (⟨6, 29, 59, 6, 30, 1, 0, t % 8, (t / 8) % 42, MODE_RUN⟩, false) := by
      simp [alarmStep]
    have hd : decide (t = 336) = false := by simp; omega
    rw [e, ea, hd, tail_phase]
    by_cases hk : (t + 1) % 336 = 0
    · have e2 : idleClosed (t + 1) =
          ⟨6, 30, 0, 6, 30, 1, 0, (t + 1) % 8, ((t + 1) / 8) % 42, MODE_RUN⟩ :=
        idleClosed_eq _ 30 0 0 (by split_ifs <;> omega) (by split_ifs <;> omega)
          (by split_ifs <;> omega)
      have f1 : (t + 1) % 8 = 0 := by omega
      have f2 : ((t + 1) / 8) % 42 = 0 := by omega
      rw [e2, if_pos hk, f1, f2]
      rfl
    · have e2 : idleClosed (t + 1) =
          ⟨6, 29, 59, 6, 30, 1, 0, (t + 1) % 8, ((t + 1) / 8) % 42, MODE_RUN⟩ :=
        idleClosed_eq _ 29 59 0 (by split_ifs <;> omega) (by split_ifs <;> omega)
          (by split_ifs <;> omega)
      rw [e2, if_neg hk]
  · -- inside the alarm minute
    have e : idleClosed t =
        ⟨6, 30, t / 336 - 1, 6, 30, 1, if t = 336 then 0 else 1, t % 8, (t / 8) % 42,
          MODE_RUN⟩ :=
      idleClosed_eq t 30 _ _ (by split_ifs <;> omega) (by split_ifs <;> omega)
        (by split_ifs <;> omega)
    have ea : alarmStep ⟨6, 30, t / 336 - 1, 6, 30, 1, if t = 336 then 0 else 1, t % 8,
          (t / 8) % 42, MODE_RUN⟩ =
        (⟨6, 30, t / 336 - 1, 6, 30, 1, 1, t % 8, (t / 8) % 42, MODE_RUN⟩,
          decide (t = 336)) := by
      by_cases h336 : t = 336
      · simp [alarmStep, h336]
      · simp [alarmStep, h336]
    rw [e, ea, tail_phase]
    by_cases hk : (t + 1) % 336 = 0
    · have f1 : (t + 1) % 8 = 0 := by omega
      have f2 : ((t + 1) / 8) % 42 = 0 := by omega
      rw [if_pos hk]
      by_cases h60 : t / 336 = 60
      · have e2 : idleClosed (t + 1) =
            ⟨6, 31, 0, 6, 30, 1, 1, (t + 1) % 8, ((t + 1) / 8) % 42, MODE_RUN⟩ :=
          idleClosed_eq _ 31 0 1 (by split_ifs <;> omega) (by split_ifs <;> omega)
            (by split_ifs <;> omega)
        rw [e2, f1, f2, h60]
        rfl
      · have e2 : idleClosed (t + 1) =
            ⟨6, 30, t / 336, 6, 30, 1, 1, (t + 1) % 8, ((t + 1) / 8) % 42, MODE_RUN⟩ :=
          idleClosed_eq _ 30 _ 1 (by split_ifs <;> omega) (by split_ifs <;> omega)
            (by split_ifs <;> omega)
        have g1 : (t / 336 - 1 + 1) % 256 = t / 336 := by omega
        have g2 : ¬ 60 ≤ t / 336 := by omega
        rw [e2, f1, f2]
        simp only [advanceSecond, g1, ge_iff_le, g2, if_false]
    · have e2 : idleClosed (t + 1) =
          ⟨6, 30, t / 336 - 1, 6, 30, 1, 1, (t + 1) % 8, ((t + 1) / 8) % 42, MODE_RUN⟩ :=
        idleClosed_eq _ 30 _ 1 (by split_ifs <;> omega) (by split_ifs <;> omega)
          (by split_ifs <;> omega)
      rw [e2, if_neg hk]

theorem idleRun_closed (n : Nat) :
    ∀ t : Nat, t + n ≤ 61 * 336 → idleRun n (idleClosed t) = idleClosed (t + n) := by
  induction n with
  | zero => intro t _; rfl
  | succ n ih =>
    intro t ht
    have hs := idle_step t (by omega)
    simp only [idleRun, hs]
    rw [ih (t + 1) (by omega)]
    congr 1
    omega

theorem idleTone_closed (n t : Nat) (ht : t + n < 61 * 336) :
    idleTone n (idleClosed t) = decide (t + n = 336) := by
  simp only [idleTone, idleRun_closed n t (by omega), idle_step (t + n) ht]

theorem alarmStart_closed (f r : Nat) (hf : f < 8) (hr : r < 42) :
    alarmStart f r = idleClosed (f + 8 * r) := by
  have e := idleClosed_eq (f + 8 * r) 29 59 0 (by split_ifs <;> omega) (by split_ifs <;> omega)
    (by split_ifs <;> omega)
  have f1 : (f + 8 * r) % 8 = f := by omega
  have f2 : ((f + 8 * r) / 8) % 42 = r := by omega
  rw [e, f1, f2]
  rfl

theorem readsTime_closed (t : Nat) (ht : t ≤ 61 * 336) :
    readsTime (idleClosed t) 6 31 0 ↔ t = 61 * 336 := by
  simp only [readsTime, idleClosed, true_and]
  split_ifs <;> omega

theorem sees_alarm_closed (t : Nat) (ht : t ≤ 61 * 336) :
    ((idleClosed t).horas = 6 ∧ (idleClosed t).minutos = 30) ↔ (336 ≤ t ∧ t < 61 * 336) := by
  simp only [idleClosed, true_and]
  split_ifs <;> omega

/-- C10: in Run mode without button or key events, from 06:29:59 with alarm
06:30 enabled, latch clear, cursor f < 8 and refresh counter r < 42, the time
first reads 06:31:00 after 20496 - (f + 8 r) passes; the first pass whose alarm
check sees hours 6 and minutes 30 is pass 336 - (f + 8 r) (counted from 0), and
among the passes of the run the tone is played in that pass and in no other. -/
theorem alarm_fires_once (f r : Nat) (hf : f < 8) (hr : r < 42) :
    readsTime (idleRun (20496 - (f + 8 * r)) (alarmStart f r)) 6 31 0 ∧
    (∀ n, n < 20496 - (f + 8 * r) → ¬ readsTime (idleRun n (alarmStart f r)) 6 31 0) ∧
    336 - (f + 8 * r) < 20496 - (f + 8 * r) ∧
    ((idleRun (336 - (f + 8 * r)) (alarmStart f r)).horas = 6 ∧
      (idleRun (336 - (f + 8 * r)) (alarmStart f r)).minutos = 30) ∧
    (∀ j, j < 336 - (f + 8 * r) →
      ¬ ((idleRun j (alarmStart f r)).horas = 6 ∧ (idleRun j (alarmStart f r)).minutos = 30)) ∧
    (∀ j, j < 20496 - (f + 8 * r) →
      (idleTone j (alarmStart f r) = true ↔ j = 336 - (f + 8 * r))) := by
  rw [alarmStart_closed f r hf hr]
  refine ⟨?_, ?_, by omega, ?_, ?_, ?_⟩
  · rw [idleRun_closed _ _ (by omega), readsTime_closed _ (by omega)]
    omega
  · intro n hn
    rw [idleRun_closed _ _ (by omega), readsTime_closed _ (by omega)]
    omega
  · rw [idleRun_closed _ _ (by omega), sees_alarm_closed _ (by omega)]
    omega
  · intro j hj
    rw [idleRun_closed _ _ (by omega), sees_alarm_closed _ (by omega)]
    omega
  · intro j hj
    rw [idleTone_closed _ _ (by omega), decide_eq_true_eq]
    omega

/-- Instance of C10 for cursor 0 and refresh counter 0: the tone is played in
pass 336 of the run. -/
theorem alarm_fires_once_witness : idleTone 336 (alarmStart 0 0) = true :=
  ((alarm_fires_once 0 0 (by decide) (by decide)).2.2.2.2.2 336 (by decide)).2 rfl

/-! ## The digit buffer and the segment decoder -/

/-- C11: for an in-range state the digit buffer of a pass is
[M/10, M%10, s/10, s%10, 10, 10, H/10, H%10] with s the clock seconds and
(H, M) the alarm time in SetAlarmHour and SetAlarmMinute and the clock time
otherwise; every entry except positions 4 and 5 is at most 9; for 12:34:56 in
Run mode the buffer is [3,4,5,6,10,10,1,2]. -/
theorem digit_buffer_layout (v : LoopVars) (hr : InRange v) :
    ((v.mode = MODE_SET_ALARM_HOUR ∨ v.mode = MODE_SET_ALARM_MIN) →
      digitsOf v = [v.alarm_m / 10, v.alarm_m % 10, v.segundos / 10, v.segundos % 10, 10, 10,
        v.alarm_h / 10, v.alarm_h % 10]) ∧
    (¬ (v.mode = MODE_SET_ALARM_HOUR ∨ v.mode = MODE_SET_ALARM_MIN) →
      digitsOf v = [v.minutos / 10, v.minutos % 10, v.segundos / 10, v.segundos % 10, 10, 10,
        v.horas / 10, v.horas % 10]) ∧
    (digitsOf v).length = 8 ∧
    (∀ i, i < 8 → i ≠ 4 → i ≠ 5 → (digitsOf v).getD i 0 ≤ 9) ∧
    (digitsOf v).getD 4 0 = 10 ∧ (digitsOf v).getD 5 0 = 10 ∧
    (v.mode = MODE_RUN → v.horas = 12 → v.minutos = 34 → v.segundos = 56 →
      digitsOf v = [3, 4, 5, 6, 10, 10, 1, 2]) := by
  obtain ⟨h1, h2, h3, h4, h5, h6, h7⟩ := hr
  refine ⟨?_, ?_, ?_, ?_, ?_, ?_, ?_⟩
  · intro hm
    simp only [digitsOf, hm, if_true]
  · intro hm
    simp only [digitsOf, hm, if_false]
  · simp only [digitsOf, List.length_cons, List.length_nil]
  · intro i hi h4 h5
    simp only [digitsOf]
    interval_cases i <;> simp only [List.getD_cons_zero, List.getD_cons_succ] <;>
      first | omega | (split_ifs <;> omega)
  · simp [digitsOf]
  · simp [digitsOf]
  · intro hm hh hmi hs
    simp [digitsOf, hm, hh, hmi, hs]

/-- Instance of C11: the buffer for 12:34:56 in Run mode. -/
theorem digit_buffer_layout_witness :
    digitsOf { initVars with horas := 12, minutos := 34, segundos := 56 } =
      [3, 4, 5, 6, 10, 10, 1, 2] :=
  (digit_buffer_layout { initVars with horas := 12, minutos := 34, segundos := 56 }
    (by decide)).2.2.2.2.2.2 rfl rfl rfl rfl

/-- C13: `decoder` maps 0..9 to 0x3F, 0x06, 0x5B, 0x4F, 0x66, 0x6D, 0x7D, 0x07,
0x7F, 0x6F, which is the standard seven-segment table with segment a on bit 0
through g on bit 6, and every other value, the blank 10 included, to 0x00; the
ten digit patterns are pairwise distinct, non-zero and below 0x80. -/
theorem decoder_table :
    (List.range 10).map decoder =
      [0x3F, 0x06, 0x5B, 0x4F, 0x66, 0x6D, 0x7D, 0x07, 0x7F, 0x6F] ∧
    (∀ d, d < 10 → decoder d = segmentBits (standardSegments d)) ∧
    (∀ v, 10 ≤ v → decoder v = 0x00) ∧ decoder 10 = 0x00 ∧
    (∀ a b, a < 10 → b < 10 → decoder a = decoder b → a = b) ∧
    (∀ d, d < 10 → decoder d ≠ 0 ∧ decoder d < 0x80) := by
  refine ⟨by decide, ?_, ?_, by decide, ?_, ?_⟩
  · intro d hd
    interval_cases d <;> decide
  · intro v hv
    unfold decoder
    split <;> omega
  · intro a b ha hb
    interval_cases a <;> interval_cases b <;> decide
  · intro d hd
    interval_cases d <;> decide

/-- Instance of C13: digit 7 and a value outside 0..9. -/
theorem decoder_table_witness : decoder 7 = 0x07 ∧ decoder 200 = 0x00 :=
  ⟨(decoder_table.2.1 7 (by decide)).trans (by decide), decoder_table.2.2.1 200 (by decide)⟩

/-! ## The digit enable lines -/

theorem testBit_digitOff (odr i p : Nat) :
    (digitOff odr i).testBit p = (odr.testBit p || decide (digit_pins.getD i 0 = p)) := by
  simp only [digitOff, Nat.testBit_or, Nat.one_shiftLeft, Nat.testBit_two_pow]

theorem testBit_digitOn (odr i p : Nat) (hp : p < 32) :
    (digitOn odr i).testBit p = (odr.testBit p && !decide (digit_pins.getD i 0 = p)) := by
  have e : (0xFFFFFFFF : Nat) = 2 ^ 32 - 1 := by norm_num
  simp only [digitOn, e, Nat.testBit_and, Nat.testBit_xor, Nat.one_shiftLeft,
    Nat.testBit_two_pow, Nat.testBit_two_pow_sub_one, hp, decide_True, Bool.true_xor]

theorem pin_lt (i : Nat) : digit_pins.getD i 0 < 32 := by
  by_cases hi : i < 8
  · interval_cases i <;> decide
  · have : digit_pins.length ≤ i := by simp [digit_pins]; omega
    rw [List.getD_eq_default _ _ this]
    decide

theorem pin_injective (i j : Nat) (hi : i < 8) (hj : j < 8)
    (h : digit_pins.getD i 0 = digit_pins.getD j 0) : i = j := by
  interval_cases i <;> interval_cases j <;> first | rfl | (revert h; decide)

theorem allDigitsOff_inactive (odr i : Nat) (hi : i < 8) :
    ¬ lineActive (allDigitsOff odr) i := by
  simp only [lineActive, allDigitsOff, List.range, List.range.loop,
    List.foldl_cons, List.foldl_nil, Bool.not_eq_false, testBit_digitOff]
  interval_cases i <;> simp [digit_pins]

theorem digitOn_active (o p i : Nat) (hp : p < 8) (hi : i < 8) :
    lineActive (digitOn (allDigitsOff o) p) i ↔ i = p := by
  have hoff := allDigitsOff_inactive o i hi
  simp only [lineActive, Bool.not_eq_false] at hoff
  simp only [lineActive, testBit_digitOn _ _ _ (pin_lt i), hoff, Bool.true_and,
    Bool.not_eq_false', decide_eq_true_eq]
  constructor
  · intro h; exact (pin_injective p i hp hi h).symm
  · intro h; rw [h]

theorem displayEnable_run (v : LoopVars) (odr : Nat) (hm : v.mode = MODE_RUN) :
    displayEnable v odr = digitOn (allDigitsOff odr) v.fsm := by
  simp only [displayEnable, hm, if_true]

theorem displayEnable_hour (v : LoopVars) (odr : Nat)
    (hm : v.mode = MODE_SET_TIME_HOUR ∨ v.mode = MODE_SET_ALARM_HOUR) :
    displayEnable v odr =
      if (v.fsm = 6 ∨ v.fsm = 7) ∧ v.refresh_counter % 20 < 10 then allDigitsOff odr
      else digitOn (allDigitsOff odr) v.fsm := by
  obtain ⟨h, m, s, ah, am, en, la, f, rc, md⟩ := v
  simp only [] at hm
  rcases hm with hm | hm <;> subst hm <;>
    simp only [displayEnable, blinkOf, reduceCtorEq, ne_eq, not_false_eq_true, if_true,
      if_false, true_or, or_true, true_and, false_or, or_false, false_and] <;>
    split_ifs <;> simp_all
  
theorem displayEnable_min (v : LoopVars) (odr : Nat)
    (hm : v.mode = MODE_SET_TIME_MIN ∨ v.mode = MODE_SET_ALARM_MIN) :
    displayEnable v odr =
      if (v.fsm = 0 ∨ v.fsm = 1) ∧ v.refresh_counter % 20 < 10 then allDigitsOff odr
      else digitOn (allDigitsOff odr) v.fsm := by
  obtain ⟨h, m, s, ah, am, en, la, f, rc, md⟩ := v
  simp only [] at hm
  rcases hm with hm | hm <;> subst hm <;>
    simp only [displayEnable, blinkOf, reduceCtorEq, ne_eq, not_false_eq_true, if_true,
      if_false, true_or, or_true, true_and, false_or, or_false, false_and] <;>
    split_ifs <;> simp_all

/-- C12, the claim as stated fails: in SetTimeHour with the cursor on digit 6
the line of digit 6 is active at refresh counter 10 (10 mod 20 >= 10) and
inactive at refresh counter 0 (0 mod 20 < 10). -/
theorem hour_blink_phase_swapped :
    hourEditAtTen.refresh_counter % 20 ≥ 10 ∧
    lineActive (displayEnable hourEditAtTen 0) 6 ∧
    hourEditAtZero.refresh_counter % 20 < 10 ∧
    ¬ lineActive (displayEnable hourEditAtZero 0) 6 := by
  decide

/-- C12, amended: in SetTimeHour, for every cursor position p in 0..7 and every
refresh counter rc, when rc mod 20 < 10 the display step leaves the line of
position p inactive if p is 6 or 7 and activates it for every other p; when
rc mod 20 >= 10 it activates the line of position p for all eight positions. -/
theorem hour_edit_blink_enable (v : LoopVars) (odr : Nat)
    (hm : v.mode = MODE_SET_TIME_HOUR) (hp : v.fsm < 8) :
    (v.refresh_counter % 20 < 10 →
      ((v.fsm = 6 ∨ v.fsm = 7) → ¬ lineActive (displayEnable v odr) v.fsm) ∧
      (¬ (v.fsm = 6 ∨ v.fsm = 7) → lineActive (displayEnable v odr) v.fsm)) ∧
    (10 ≤ v.refresh_counter % 20 → lineActive (displayEnable v odr) v.fsm) := by
  rw [displayEnable_hour v odr (Or.inl hm)]
  refine ⟨fun hb => ⟨fun h67 => ?_, fun h67 => ?_⟩, fun hb => ?_⟩
  · rw [if_pos ⟨h67, hb⟩]
    exact allDigitsOff_inactive odr v.fsm hp
  · rw [if_neg (fun h => h67 h.1)]
    exact (digitOn_active odr v.fsm v.fsm hp hp).2 rfl
  · rw [if_neg (fun h => by omega)]
    exact (digitOn_active odr v.fsm v.fsm hp hp).2 rfl

/-- Instance of the amended C12: cursor on digit 6 at refresh counter 10. -/
theorem hour_edit_blink_enable_witness : lineActive (displayEnable hourEditAtTen 0) 6 :=
  (hour_edit_blink_enable hourEditAtTen 0 rfl (by decide)).2 (by decide)

/-- C17: for every mode, cursor position p in 0..7 and refresh counter, after
the display step no enable line other than that of position p is active (so
at most one is); the line of p is active in Run mode, and in an edit mode when
p is outside the field under edit (6, 7 for the hour modes, 0, 1 for the
minute modes). -/
theorem one_digit_enabled (v : LoopVars) (odr : Nat) (hp : v.fsm < 8) :
    (∀ i, i < 8 → lineActive (displayEnable v odr) i → i = v.fsm) ∧
    (v.mode = MODE_RUN → lineActive (displayEnable v odr) v.fsm) ∧
    ((v.mode = MODE_SET_TIME_HOUR ∨ v.mode = MODE_SET_ALARM_HOUR) →
      ¬ (v.fsm = 6 ∨ v.fsm = 7) → lineActive (displayEnable v odr) v.fsm) ∧
    ((v.mode = MODE_SET_TIME_MIN ∨ v.mode = MODE_SET_ALARM_MIN) →
      ¬ (v.fsm = 0 ∨ v.fsm = 1) → lineActive (displayEnable v odr) v.fsm) := by
  have hon : lineActive (digitOn (allDigitsOff odr) v.fsm) v.fsm :=
    (digitOn_active odr v.fsm v.fsm hp hp).2 rfl
  refine ⟨?_, ?_, ?_, ?_⟩
  · intro i hi
    have hcases : displayEnable v odr = digitOn (allDigitsOff odr) v.fsm ∨
        displayEnable v odr = allDigitsOff odr := by
      rcases hmd : v.mode with _ | _ | _ | _ | _
      · exact Or.inl (displayEnable_run v odr hmd)
      · rw [displayEnable_hour v odr (Or.inl hmd)]; split_ifs <;> simp
      · rw [displayEnable_min v odr (Or.inl hmd)]; split_ifs <;> simp
      · rw [displayEnable_hour v odr (Or.inr hmd)]; split_ifs <;> simp
      · rw [displayEnable_min v odr (Or.inr hmd)]; split_ifs <;> simp
    rcases hcases with e | e <;> rw [e]
    · exact (digitOn_active odr v.fsm i hp hi).1
    · intro h; exact absurd h (allDigitsOff_inactive odr i hi)
  · intro hm
    rw [displayEnable_run v odr hm]; exact hon
  · intro hm h67
    rw [displayEnable_hour v odr hm, if_neg (fun h => h67 h.1)]; exact hon
  · intro hm h01
    rw [displayEnable_min v odr hm, if_neg (fun h => h01 h.1)]; exact hon

/-- Instance of C17: on entry to the loop (Run mode, cursor 0) the line of
digit 0 is active. -/
theorem one_digit_enabled_witness : lineActive (displayEnable initVars 0) 0 :=
  (one_digit_enabled initVars 0 (by decide)).2.1 rfl

/-! ## One second every 336 passes -/

theorem idleRun_succ (n : Nat) :
    ∀ v : LoopVars, idleRun (n + 1) v = (loopIter 0 KEY_NONE (idleRun n v)).1 := by
  induction n with
  | zero => intro v; rfl
  | succ n ih => intro v; exact ih (loopIter 0 KEY_NONE v).1

theorem idleRun_add (a b : Nat) (v : LoopVars) :
    idleRun (a + b) v = idleRun b (idleRun a v) := by
  induction b with
  | zero => rfl
  | succ b ih => rw [← Nat.add_assoc, idleRun_succ, idleRun_succ, ih]

theorem alarmStep_latch_only (w : LoopVars) :
    ∃ L, (alarmStep w).1 =
      ⟨w.horas, w.minutos, w.segundos, w.alarm_h, w.alarm_m, w.alarm_enabled, L, w.fsm,
        w.refresh_counter, w.mode⟩ := by
  unfold alarmStep
  split_ifs
  · exact ⟨1, rfl⟩
  · exact ⟨w.alarm_latched, rfl⟩
  · exact ⟨0, rfl⟩
  · exact ⟨w.alarm_latched, rfl⟩

theorem advanceSecond_time (a b : LoopVars) (hh : a.horas = b.horas)
    (hm : a.minutos = b.minutos) (hs : a.segundos = b.segundos) :
    (advanceSecond a).horas = (advanceSecond b).horas ∧
    (advanceSecond a).minutos = (advanceSecond b).minutos ∧
    (advanceSecond a).segundos = (advanceSecond b).segundos := by
  simp only [advanceSecond, hh, hm, hs]
  split_ifs <;> exact ⟨rfl, rfl, rfl⟩

theorem advanceSecond_frame (a : LoopVars) :
    (advanceSecond a).fsm = a.fsm ∧ (advanceSecond a).refresh_counter = a.refresh_counter ∧
    (advanceSecond a).mode = a.mode := by
  simp only [advanceSecond]
  split_ifs <;> exact ⟨rfl, rfl, rfl⟩

/-- One idle pass in Run mode when `t` passes have gone by since cursor 0 and
refresh counter 0: only the latch, the cursor, the refresh counter and, on the
336th pass, the time change. -/
theorem idle_pass_phase (w : LoopVars) (t : Nat) (hm : w.mode = MODE_RUN)
    (hf : w.fsm = t % 8) (hr : w.refresh_counter = (t / 8) % 42) :
    ∃ L, (loopIter 0 KEY_NONE w).1 =
      if (t + 1) % 336 = 0 then
        advanceSecond ⟨w.horas, w.minutos, w.segundos, w.alarm_h, w.alarm_m, w.alarm_enabled,
          L, 0, 0, MODE_RUN⟩
      else
        ⟨w.horas, w.minutos, w.segundos, w.alarm_h, w.alarm_m, w.alarm_enabled, L,
          (t + 1) % 8, ((t + 1) / 8) % 42, MODE_RUN⟩ := by
  obtain ⟨L, hL⟩ := alarmStep_latch_only w
  refine ⟨L, ?_⟩
  rw [loopIter_idle, hL, hf, hr, hm, tail_phase]

theorem idleRun_within_second (v : LoopVars) (hm : v.mode = MODE_RUN) (hf : v.fsm = 0)
    (hr : v.refresh_counter = 0) (n : Nat) (hn : n < 336) :
    (idleRun n v).mode = MODE_RUN ∧ (idleRun n v).horas = v.horas ∧
    (idleRun n v).minutos = v.minutos ∧ (idleRun n v).segundos = v.segundos ∧
    (idleRun n v).fsm = n % 8 ∧ (idleRun n v).refresh_counter = n / 8 := by
  induction n with
  | zero => exact ⟨hm, rfl, rfl, rfl, hf, hr⟩
  | succ n ih =>
    obtain ⟨i1, i2, i3, i4, i5, i6⟩ := ih (by omega)
    have h42 : n / 8 = (n / 8) % 42 := by omega
    obtain ⟨L, hL⟩ := idle_pass_phase (idleRun n v) n i1 i5 (i6.trans h42)
    have hk : ¬ (n + 1) % 336 = 0 := by omega
    rw [idleRun_succ, hL, if_neg hk]
    refine ⟨rfl, i2, i3, i4, rfl, ?_⟩
    show ((n + 1) / 8) % 42 = (n + 1) / 8
    omega

theorem idleRun_full_second (v : LoopVars) (hm : v.mode = MODE_RUN) (hf : v.fsm = 0)
    (hr : v.refresh_counter = 0) (N : Nat) (hN : N = 336) :
    (idleRun N v).mode = MODE_RUN ∧ (idleRun N v).fsm = 0 ∧
    (idleRun N v).refresh_counter = 0 ∧
    (idleRun N v).horas = (advanceSecond v).horas ∧
    (idleRun N v).minutos = (advanceSecond v).minutos ∧
    (idleRun N v).segundos = (advanceSecond v).segundos := by
  obtain ⟨n, rfl⟩ : ∃ n, N = n + 1 := ⟨335, hN⟩
  have hn : n = 335 := by omega
  obtain ⟨i1, i2, i3, i4, i5, i6⟩ := idleRun_within_second v hm hf hr n (by omega)
  have h42 : n / 8 = (n / 8) % 42 := by omega
  obtain ⟨L, hL⟩ := idle_pass_phase (idleRun n v) n i1 i5 (i6.trans h42)
  have hk : (n + 1) % 336 = 0 := by omega
  rw [idleRun_succ n, hL, if_pos hk]
  have ht := advanceSecond_time
    ⟨(idleRun n v).horas, (idleRun n v).minutos, (idleRun n v).segundos,
      (idleRun n v).alarm_h, (idleRun n v).alarm_m, (idleRun n v).alarm_enabled, L, 0, 0,
      MODE_RUN⟩ v i2 i3 i4
  have hfr := advanceSecond_frame
    ⟨(idleRun n v).horas, (idleRun n v).minutos, (idleRun n v).segundos,
      (idleRun n v).alarm_h, (idleRun n v).alarm_m, (idleRun n v).alarm_enabled, L, 0, 0,
      MODE_RUN⟩
  exact ⟨hfr.2.2, hfr.1, hfr.2.1, ht.1, ht.2.1, ht.2.2⟩

theorem advanceSecond_secondsOfDay (v : LoopVars) (hh : v.horas < 24) (hm : v.minutos < 60)
    (hs : v.segundos < 60) :
    (advanceSecond v).horas < 24 ∧ (advanceSecond v).minutos < 60 ∧
    (advanceSecond v).segundos < 60 ∧
    secondsOfDay (advanceSecond v) = (secondsOfDay v + 1) % 86400 := by
  simp only [advanceSecond, secondsOfDay, ge_iff_le]
  split_ifs <;> simp only [] <;> exact ⟨by omega, by omega, by omega, by omega⟩

theorem idleRun_seconds (v : LoopVars) (hm : v.mode = MODE_RUN) (hf : v.fsm = 0)
    (hr : v.refresh_counter = 0) (hh : v.horas < 24) (hmi : v.minutos < 60)
    (hs : v.segundos < 60) (N : Nat) (hN : N = 336) (k : Nat) :
    (idleRun (N * k) v).mode = MODE_RUN ∧ (idleRun (N * k) v).fsm = 0 ∧
    (idleRun (N * k) v).refresh_counter = 0 ∧
    (idleRun (N * k) v).horas < 24 ∧ (idleRun (N * k) v).minutos < 60 ∧
    (idleRun (N * k) v).segundos < 60 ∧
    secondsOfDay (idleRun (N * k) v) = (secondsOfDay v + k) % 86400 := by
  induction k with
  | zero =>
    refine ⟨hm, hf, hr, hh, hmi, hs, ?_⟩
    show secondsOfDay v = (secondsOfDay v + 0) % 86400
    simp only [secondsOfDay] at *
    omega
  | succ k ih =>
    obtain ⟨j1, j2, j3, j4, j5, j6, j7⟩ := ih
    have e : N * (k + 1) = N * k + N := by ring
    rw [e, idleRun_add]
    obtain ⟨f1, f2, f3, f4, f5, f6⟩ := idleRun_full_second (idleRun (N * k) v) j1 j2 j3 N hN
    obtain ⟨a1, a2, a3, a4⟩ := advanceSecond_secondsOfDay (idleRun (N * k) v) j4 j5 j6
    refine ⟨f1, f2, f3, ?_, ?_, ?_, ?_⟩
    · rw [f4]; exact a1
    · rw [f5]; exact a2
    · rw [f6]; exact a3
    · have e2 : secondsOfDay (idleRun N (idleRun (N * k) v)) =
          secondsOfDay (advanceSecond (idleRun (N * k) v)) := by
        simp only [secondsOfDay, f4, f5, f6]
      rw [e2, a4, j7]
      omega

theorem cursorStep_wrap (w : LoopVars) (hw : w.fsm < 8) :
    (cursorStep w).fsm = (w.fsm + 1) % 8 ∧
    (cursorStep w).refresh_counter =
      if w.fsm = 7 then (w.refresh_counter + 1) % 65536 else w.refresh_counter := by
  have hf : (w.fsm + 1) % 256 = w.fsm + 1 := by omega
  by_cases h7 : w.fsm = 7
  · have c : 8 ≤ w.fsm + 1 := by omega
    simp only [cursorStep, hf, ge_iff_le, c, if_true]
    rw [if_pos h7]
    exact ⟨by omega, rfl⟩
  · have c : ¬ 8 ≤ w.fsm + 1 := by omega
    simp only [cursorStep, hf, ge_iff_le, c, if_false]
    rw [if_neg h7]
    exact ⟨by omega, rfl⟩

/-- C18: from cursor 0 and refresh counter 0 in Run mode without button or key
events, the first 335 passes leave hours, minutes and seconds unchanged, the
336th performs the one-second advance and leaves cursor 0 and refresh counter
0, so after 336 k passes the clock has advanced by k seconds; the cursor goes
from 7 to 0 every 8 passes and only that wrap increments the refresh counter. -/
theorem second_every_336_passes (v : LoopVars) (hm : v.mode = MODE_RUN) (hf : v.fsm = 0)
    (hr : v.refresh_counter = 0) :
    (∀ n, n < 336 →
      (idleRun n v).horas = v.horas ∧ (idleRun n v).minutos = v.minutos ∧
      (idleRun n v).segundos = v.segundos ∧
      (idleRun n v).fsm = n % 8 ∧ (idleRun n v).refresh_counter = n / 8) ∧
    ((idleRun 336 v).horas = (advanceSecond v).horas ∧
      (idleRun 336 v).minutos = (advanceSecond v).minutos ∧
      (idleRun 336 v).segundos = (advanceSecond v).segundos ∧
      (idleRun 336 v).fsm = 0 ∧ (idleRun 336 v).refresh_counter = 0 ∧
      (idleRun 336 v).mode = MODE_RUN) ∧
    (v.horas < 24 → v.minutos < 60 → v.segundos < 60 → ∀ k,
      secondsOfDay (idleRun (336 * k) v) = (secondsOfDay v + k) % 86400 ∧
      (idleRun (336 * k) v).fsm = 0 ∧ (idleRun (336 * k) v).refresh_counter = 0) ∧
    (∀ w : LoopVars, w.fsm < 8 →
      (cursorStep w).fsm = (w.fsm + 1) % 8 ∧
      (cursorStep w).refresh_counter =
        if w.fsm = 7 then (w.refresh_counter + 1) % 65536 else w.refresh_counter) := by
  refine ⟨?_, ?_, ?_, cursorStep_wrap⟩
  · intro n hn
    exact (idleRun_within_second v hm hf hr n hn).2
  · obtain ⟨f1, f2, f3, f4, f5, f6⟩ := idleRun_full_second v hm hf hr 336 rfl
    exact ⟨f4, f5, f6, f2, f3, f1⟩
  · intro hh hmi hs k
    obtain ⟨j1, j2, j3, _, _, _, j7⟩ := idleRun_seconds v hm hf hr hh hmi hs 336 rfl k
    exact ⟨j7, j2, j3⟩

/-- Instance of C18: from the initial values (12:00:00) the clock reads second
1 after 336 idle passes. -/
theorem second_every_336_passes_witness : (idleRun 336 initVars).segundos = 1 :=
  (second_every_336_passes initVars rfl rfl rfl).2.1.2.2.1

/-! ## Increment and decrement are inverse; frame of the key step -/

/-- C19: in every edit mode, for an in-range value of the targeted field, key
'2' followed by key '8' or '0' gives back the original state, and so does '8'
or '0' followed by '2'. -/
theorem inc_dec_inverse (v : LoopVars) :
    (v.mode = MODE_SET_TIME_HOUR → v.horas < 24 →
      keyStep KEY_8 (keyStep KEY_2 v) = v ∧ keyStep KEY_0 (keyStep KEY_2 v) = v ∧
      keyStep KEY_2 (keyStep KEY_8 v) = v ∧ keyStep KEY_2 (keyStep KEY_0 v) = v) ∧
    (v.mode = MODE_SET_TIME_MIN → v.minutos < 60 →
      keyStep KEY_8 (keyStep KEY_2 v) = v ∧ keyStep KEY_0 (keyStep KEY_2 v) = v ∧
      keyStep KEY_2 (keyStep KEY_8 v) = v ∧ keyStep KEY_2 (keyStep KEY_0 v) = v) ∧
    (v.mode = MODE_SET_ALARM_HOUR → v.alarm_h < 24 →
      keyStep KEY_8 (keyStep KEY_2 v) = v ∧ keyStep KEY_0 (keyStep KEY_2 v) = v ∧
      keyStep KEY_2 (keyStep KEY_8 v) = v ∧ keyStep KEY_2 (keyStep KEY_0 v) = v) ∧
    (v.mode = MODE_SET_ALARM_MIN → v.alarm_m < 60 →
      keyStep KEY_8 (keyStep KEY_2 v) = v ∧ keyStep KEY_0 (keyStep KEY_2 v) = v ∧
      keyStep KEY_2 (keyStep KEY_8 v) = v ∧ keyStep KEY_2 (keyStep KEY_0 v) = v) := by
  obtain ⟨h, m, s, ah, am, en, la, f, rc, md⟩ := v
  refine ⟨?_, ?_, ?_, ?_⟩ <;> intro hm hlt <;> simp only [] at hm hlt <;> subst hm <;>
    simp [keyStep, alarmEntry, menuStep] <;> split_ifs <;> omega

/-- Instance of C19: in SetTimeHour at hour 23, '2' then '8' gives back the
state. -/
theorem inc_dec_inverse_witness :
    keyStep KEY_8 (keyStep KEY_2 { initVars with mode := MODE_SET_TIME_HOUR, horas := 23 }) =
      { initVars with mode := MODE_SET_TIME_HOUR, horas := 23 } :=
  ((inc_dec_inverse { initVars with mode := MODE_SET_TIME_HOUR, horas := 23 }).1
    rfl (by decide)).1

/-- C20: for every state and key the key step changes, among hours, minutes,
alarm hours and alarm minutes, at most the field the mode targets (none in
Run); seconds change only through key '*'; the other loop variables besides
the mode never change; and in an edit mode every key other than '#', '*', '2',
'8', '0' leaves the state unchanged. -/
theorem key_step_frame (v : LoopVars) (k : Nat) :
    (v.mode = MODE_SET_TIME_HOUR →
      (keyStep k v).minutos = v.minutos ∧ (keyStep k v).alarm_h = v.alarm_h ∧
      (keyStep k v).alarm_m = v.alarm_m) ∧
    (v.mode = MODE_SET_TIME_MIN →
      (keyStep k v).horas = v.horas ∧ (keyStep k v).alarm_h = v.alarm_h ∧
      (keyStep k v).alarm_m = v.alarm_m) ∧
    (v.mode = MODE_SET_ALARM_HOUR →
      (keyStep k v).horas = v.horas ∧ (keyStep k v).minutos = v.minutos ∧
      (keyStep k v).alarm_m = v.alarm_m) ∧
    (v.mode = MODE_SET_ALARM_MIN →
      (keyStep k v).horas = v.horas ∧ (keyStep k v).minutos = v.minutos ∧
      (keyStep k v).alarm_h = v.alarm_h) ∧
    (v.mode = MODE_RUN →
      (keyStep k v).horas = v.horas ∧ (keyStep k v).minutos = v.minutos ∧
      (keyStep k v).alarm_h = v.alarm_h ∧ (keyStep k v).alarm_m = v.alarm_m) ∧
    ((keyStep k v).segundos ≠ v.segundos → k = KEY_STAR) ∧
    ((keyStep k v).alarm_enabled = v.alarm_enabled ∧
      (keyStep k v).alarm_latched = v.alarm_latched ∧ (keyStep k v).fsm = v.fsm ∧
      (keyStep k v).refresh_counter = v.refresh_counter) ∧
    (v.mode ≠ MODE_RUN → k ≠ KEY_HASH → k ≠ KEY_STAR → k ≠ KEY_2 → k ≠ KEY_8 → k ≠ KEY_0 →
      keyStep k v = v) := by
  obtain ⟨h, m, s, ah, am, en, la, f, rc, md⟩ := v
  have hk : k = 35 ∨ k = 42 ∨ k = 50 ∨ k = 56 ∨ k = 48 ∨ k = 49 ∨ k = 0 ∨
      (k ≠ 35 ∧ k ≠ 42 ∧ k ≠ 50 ∧ k ≠ 56 ∧ k ≠ 48 ∧ k ≠ 49 ∧ k ≠ 0) := by omega
  rcases hk with rfl | rfl | rfl | rfl | rfl | rfl | rfl | ⟨k1, k2, k3, k4, k5, k6, k7⟩
  all_goals cases md <;> simp [keyStep, alarmEntry, menuStep, *]

/-- Instance of C20: key 'A' (code 65) in SetAlarmMinute changes nothing. -/
theorem key_step_frame_witness :
    keyStep 65 { initVars with mode := MODE_SET_ALARM_MIN } =
      { initVars with mode := MODE_SET_ALARM_MIN } :=
  (key_step_frame { initVars with mode := MODE_SET_ALARM_MIN } 65).2.2.2.2.2.2.2
    (by decide) (by decide) (by decide) (by decide) (by decide) (by decide)

/-! ## The button reader -/

theorem buttonLevel_cases (idr : Nat) : buttonLevel idr = 0 ∨ buttonLevel idr = 1 := by
  unfold buttonLevel
  split_ifs
  · exact Or.inr rfl
  · exact Or.inl rfl

theorem button_held (s1 s2 : Nat) (h1 : buttonLevel s1 = 0) :
    button_pressed_event 0 s1 s2 = (0, 0) := by
  simp [button_pressed_event, h1]

theorem buttonPolls_held (ss : List (Nat × Nat)) (h : ∀ p ∈ ss, buttonLevel p.1 = 0) :
    buttonPolls 0 ss = List.replicate ss.length 0 := by
  induction ss with
  | nil => rfl
  | cons p ss ih =>
    obtain ⟨s1, s2⟩ := p
    have hp := h (s1, s2) (List.mem_cons_self _ _)
    have hs := ih (fun q hq => h q (List.mem_cons_of_mem _ hq))
    simp only [buttonPolls, button_held s1 s2 hp, List.length_cons, List.replicate_succ, hs]

/-- C14: a poll returns 1 exactly when `last` is released (1), the first sample
reads pressed (0) and the sample taken after the settle delay reads pressed;
from the released state, while every sample read is pressed, the first poll
returns 1 and every later poll returns 0 (a later poll reads one sample only);
a poll that reads a released sample stores the released level again. -/
theorem button_edge_once :
    (∀ last s1 s2 : Nat, (button_pressed_event last s1 s2).1 = 1 ↔
      (last = 1 ∧ buttonLevel s1 = 0 ∧ buttonLevel s2 = 0)) ∧
    (∀ (s1 s2 : Nat) (ss : List (Nat × Nat)),
      buttonLevel s1 = 0 → buttonLevel s2 = 0 →
      (∀ p ∈ ss, buttonLevel p.1 = 0) →
      buttonPolls 1 ((s1, s2) :: ss) = 1 :: List.replicate ss.length 0) ∧
    (∀ (s1 s2 : Nat), buttonLevel s1 = 1 → (button_pressed_event 0 s1 s2).2 = 1) := by
  refine ⟨?_, ?_, ?_⟩
  · intro last s1 s2
    rcases buttonLevel_cases s1 with h1 | h1 <;> rcases buttonLevel_cases s2 with h2 | h2 <;>
      by_cases hl : last = 1 <;> simp [button_pressed_event, h1, h2, hl]
  · intro s1 s2 ss h1 h2 hss
    have e : button_pressed_event 1 s1 s2 = (1, 0) := by
      simp [button_pressed_event, h1, h2]
    simp only [buttonPolls, e, buttonPolls_held ss hss]
  · intro s1 s2 h1
    simp [button_pressed_event, h1]

/-- Instance of C14: three polls with the button held low (samples 0) from the
released state return 1, 0, 0. -/
theorem button_edge_once_witness :
    buttonPolls 1 [(0, 0), (0, 0), (0, 0)] = [1, 0, 0] :=
  button_edge_once.2.1 0 0 [(0, 0), (0, 0)] (by decide) (by decide) (by decide)

/-! ## The keypad scan -/

theorem anyRowLoop_cases (s : Nat → Nat) (n : Nat) :
    ∀ r pos, (∃ j, j < n ∧ rowLow (s (pos + j)) (r + j) = true ∧
        anyRowLoop s n r pos = (1, pos + j + 1)) ∨
      ((∀ j, j < n → rowLow (s (pos + j)) (r + j) = false) ∧
        anyRowLoop s n r pos = (0, pos + n)) := by
  induction n with
  | zero =>
    intro r pos
    exact Or.inr ⟨fun j hj => absurd hj (Nat.not_lt_zero j), rfl⟩
  | succ n ih =>
    intro r pos
    by_cases h : rowLow (s pos) r = true
    · refine Or.inl ⟨0, Nat.succ_pos n, h, ?_⟩
      simp only [anyRowLoop, h, if_true, Nat.add_zero]
    · have h0 : rowLow (s pos) r = false := by simpa using h
      have hstep : anyRowLoop s (n + 1) r pos = anyRowLoop s n (r + 1) (pos + 1) := by
        simp only [anyRowLoop, h0, Bool.false_eq_true, if_false]
      rcases ih (r + 1) (pos + 1) with ⟨j, hj, hlow, he⟩ | ⟨hall, he⟩
      · refine Or.inl ⟨j + 1, by omega, ?_, ?_⟩
        · have e1 : pos + (j + 1) = pos + 1 + j := by omega
          have e2 : r + (j + 1) = r + 1 + j := by omega
          rw [e1, e2]; exact hlow
        · rw [hstep, he, Prod.mk.injEq]
          exact ⟨rfl, by omega⟩
      · refine Or.inr ⟨?_, ?_⟩
        · intro j hj
          rcases Nat.eq_zero_or_pos j with rfl | hpos
          · exact h0
          · obtain ⟨j', rfl⟩ : ∃ j', j = j' + 1 := ⟨j - 1, by omega⟩
            have e1 : pos + (j' + 1) = pos + 1 + j' := by omega
            have e2 : r + (j' + 1) = r + 1 + j' := by omega
            rw [e1, e2]; exact hall j' (by omega)
        · rw [hstep, he, Prod.mk.injEq]
          exact ⟨rfl, by omega⟩

/-- While a window of four samples from `b` on reads all rows high, the wait
for release started at `p ≤ b` ends, within `b - p + 1` tests. -/
theorem waitRelease_terminates (s : Nat → Nat) (b : Nat)
    (hb : ∀ j, j < 4 → ∀ r, r < 4 → rowLow (s (b + j)) r = false) (fuel : Nat) :
    ∀ p, p ≤ b → b - p + 1 ≤ fuel → ∃ q, waitRelease s fuel p = some q := by
  induction fuel with
  | zero => intro p _ hf; omega
  | succ fuel ih =>
    intro p hp hf
    rcases anyRowLoop_cases s 4 0 p with ⟨j, hj, hlow, he⟩ | ⟨_, he⟩
    · have hlt : p + j < b := by
        by_contra hge
        have hw := hb (p + j - b) (by omega) j hj
        have e : b + (p + j - b) = p + j := by omega
        rw [e] at hw
        rw [Nat.zero_add] at hlow
        rw [hw] at hlow
        exact Bool.false_ne_true hlow
      have hk : keypad_any_row_pressed s p = (1, p + j + 1) := he
      obtain ⟨q, hq⟩ := ih (p + j + 1) (by omega) (by omega)
      exact ⟨q, by simp only [waitRelease, hk, ne_eq, one_ne_zero, not_false_eq_true, if_true, hq]⟩
    · have hk : keypad_any_row_pressed s p = (0, p + 4) := he
      exact ⟨p + 4, by simp only [waitRelease, hk, ne_eq, not_true_eq_false, if_false]⟩

theorem rowLoop_none (fuel : Nat) (s : Nat → Nat) (c n : Nat) :
    ∀ r pos, (∀ j, j < n → rowLow (s (pos + j)) (r + j) = false) →
      rowLoop fuel s c n r pos = some (none, pos + n) := by
  induction n with
  | zero => intro r pos _; rfl
  | succ n ih =>
    intro r pos h
    have h0 : rowLow (s pos) r = false := h 0 (Nat.succ_pos n)
    have hrest : ∀ j, j < n → rowLow (s (pos + 1 + j)) (r + 1 + j) = false := by
      intro j hj
      have e1 : pos + 1 + j = pos + (j + 1) := by omega
      have e2 : r + 1 + j = r + (j + 1) := by omega
      rw [e1, e2]; exact h (j + 1) (by omega)
    simp only [rowLoop, h0, Bool.false_eq_true, if_false, ih (r + 1) (pos + 1) hrest]
    congr 2
    omega

theorem rowLoop_hit (fuel : Nat) (s : Nat → Nat) (c n : Nat) :
    ∀ r pos j, j < n → (∀ i, i < j → rowLow (s (pos + i)) (r + i) = false) →
      rowLow (s (pos + j)) (r + j) = true →
      rowLoop fuel s c n r pos =
        match waitRelease s fuel (pos + j + 1) with
        | none => none
        | some p => some (some (keyAt (r + j) c), p) := by
  induction n with
  | zero => intro r pos j hj; omega
  | succ n ih =>
    intro r pos j hj hbefore hlow
    rcases Nat.eq_zero_or_pos j with rfl | hpos
    · have h1 : rowLow (s pos) r = true := hlow
      simp only [rowLoop, h1, if_true, Nat.add_zero]
    · obtain ⟨j', rfl⟩ : ∃ j', j = j' + 1 := ⟨j - 1, by omega⟩
      have h0 : rowLow (s pos) r = false := hbefore 0 (by omega)
      have e1 : pos + (j' + 1) = pos + 1 + j' := by omega
      have e2 : r + (j' + 1) = r + 1 + j' := by omega
      have hb' : ∀ i, i < j' → rowLow (s (pos + 1 + i)) (r + 1 + i) = false := by
        intro i hi
        have f1 : pos + 1 + i = pos + (i + 1) := by omega
        have f2 : r + 1 + i = r + (i + 1) := by omega
        rw [f1, f2]; exact hbefore (i + 1) (by omega)
      rw [e1, e2] at hlow
      have hrec := ih (r + 1) (pos + 1) j' (by omega) hb' hlow
      simp only [rowLoop, h0, Bool.false_eq_true, if_false, hrec, e1, e2]

theorem rowLoop_key (fuel : Nat) (s : Nat → Nat) (c n : Nat) :
    ∀ r pos k p, rowLoop fuel s c n r pos = some (some k, p) →
      ∃ r', r ≤ r' ∧ r' < r + n ∧ k = keyAt r' c := by
  induction n with
  | zero =>
    intro r pos k p h
    simp [rowLoop] at h
  | succ n ih =>
    intro r pos k p h
    by_cases hl : rowLow (s pos) r = true
    · simp only [rowLoop, hl, if_true] at h
      cases hw : waitRelease s fuel (pos + 1) with
      | none => rw [hw] at h; simp at h
      | some q =>
        rw [hw] at h
        simp only [Option.some.injEq, Prod.mk.injEq] at h
        exact ⟨r, Nat.le_refl r, by omega, h.1.symm⟩
    · have h0 : rowLow (s pos) r = false := by simpa using hl
      simp only [rowLoop, h0, Bool.false_eq_true, if_false] at h
      obtain ⟨r', h1, h2, h3⟩ := ih (r + 1) (pos + 1) k p h
      exact ⟨r', by omega, by omega, h3⟩

theorem colLoop_none (fuel : Nat) (s : Nat → Nat) (n : Nat) :
    ∀ c pos, (∀ c', c' < n → ∀ r, r < 4 → rowLow (s (pos + 4 * c' + r)) r = false) →
      colLoop fuel s n c pos = some (none, pos + 4 * n) := by
  induction n with
  | zero => intro c pos _; rfl
  | succ n ih =>
    intro c pos h
    have hrow : rowLoop fuel s c 4 0 pos = some (none, pos + 4) := by
      refine rowLoop_none fuel s c 4 0 pos (fun j hj => ?_)
      have := h 0 (Nat.succ_pos n) j hj
      simpa using this
    have hrest : ∀ c', c' < n → ∀ r, r < 4 →
        rowLow (s (pos + 4 + 4 * c' + r)) r = false := by
      intro c' hc' r hr
      have e : pos + 4 + 4 * c' + r = pos + 4 * (c' + 1) + r := by omega
      rw [e]; exact h (c' + 1) (by omega) r hr
    simp only [colLoop, hrow, ih (c + 1) (pos + 4) hrest]
    congr 2
    omega

theorem colLoop_hit (fuel : Nat) (s : Nat → Nat) (n : Nat) :
    ∀ c pos cj r, cj < n → r < 4 →
      (∀ c', c' < cj → ∀ r', r' < 4 → rowLow (s (pos + 4 * c' + r')) r' = false) →
      (∀ r', r' < r → rowLow (s (pos + 4 * cj + r')) r' = false) →
      rowLow (s (pos + 4 * cj + r)) r = true →
      colLoop fuel s n c pos =
        match waitRelease s fuel (pos + 4 * cj + r + 1) with
        | none => none
        | some p => some (some (keyAt r (c + cj)), p) := by
  induction n with
  | zero => intro c pos cj r hcj; omega
  | succ n ih =>
    intro c pos cj r hcj hr hcols hrows hlow
    rcases Nat.eq_zero_or_pos cj with rfl | hpos
    · have hrow := rowLoop_hit fuel s c 4 0 pos r hr
        (fun i hi => by simpa using hrows i hi) (by simpa using hlow)
      simp only [Nat.zero_add] at hrow
      simp only [colLoop, hrow, Nat.mul_zero, Nat.add_zero]
      cases waitRelease s fuel (pos + r + 1) <;> rfl
    · obtain ⟨cj', rfl⟩ : ∃ cj', cj = cj' + 1 := ⟨cj - 1, by omega⟩
      have hrow : rowLoop fuel s c 4 0 pos = some (none, pos + 4) := by
        refine rowLoop_none fuel s c 4 0 pos (fun j hj => ?_)
        have := hcols 0 (by omega) j hj
        simpa using this
      have e : ∀ x, pos + 4 + 4 * cj' + x = pos + 4 * (cj' + 1) + x := by
        intro x; omega
      have hcols' : ∀ c', c' < cj' → ∀ r', r' < 4 →
          rowLow (s (pos + 4 + 4 * c' + r')) r' = false := by
        intro c' hc' r' hr'
        have e' : pos + 4 + 4 * c' + r' = pos + 4 * (c' + 1) + r' := by omega
        rw [e']; exact hcols (c' + 1) (by omega) r' hr'
      have hrec := ih (c + 1) (pos + 4) cj' r (by omega) hr hcols'
        (fun r' hr' => by rw [e]; exact hrows r' hr') (by rw [e]; exact hlow)
      have e3 : c + 1 + cj' = c + (cj' + 1) := by omega
      simp only [colLoop, hrow, hrec, e, e3]

theorem keyAt_mem (r c : Nat) (hr : r < 4) (hc : c < 4) :
    keyAt r c ∈ [49, 50, 51, 65, 52, 53, 54, 66, 55, 56, 57, 67, 42, 48, 35, 68] := by
  interval_cases r <;> interval_cases c <;> decide

theorem colLoop_key (fuel : Nat) (s : Nat → Nat) (n : Nat) :
    ∀ c pos k p, colLoop fuel s n c pos = some (some k, p) →
      ∃ r' c', r' < 4 ∧ c ≤ c' ∧ c' < c + n ∧ k = keyAt r' c' := by
  induction n with
  | zero =>
    intro c pos k p h
    simp [colLoop] at h
  | succ n ih =>
    intro c pos k p h
    cases hrow : rowLoop fuel s c 4 0 pos with
    | none => simp [colLoop, hrow] at h
    | some res =>
      obtain ⟨ok, q⟩ := res
      cases ok with
      | some key =>
        simp only [colLoop, hrow, Option.some.injEq, Prod.mk.injEq] at h
        obtain ⟨r', _, h2, h3⟩ := rowLoop_key fuel s c 4 0 pos key q hrow
        exact ⟨r', c, by omega, Nat.le_refl c, by omega, h.1 ▸ h3⟩
      | none =>
        simp only [colLoop, hrow] at h
        obtain ⟨r', c', h1, h2, h3, h4⟩ := ih (c + 1) q k p h
        exact ⟨r', c', h1, by omega, by omega, h4⟩

/-- C15: if every row sample of the four-column sweep reads high, the scan
returns 0 after exactly 16 reads, without any test of the wait-for-release
loop; if (c, r) is the first position in scan order (columns outer, rows inner)
whose row reads low and later four samples in a row read every row high, the
scan returns keymap_4x4[r][c]; whatever it returns is 0 or one of the 16 table
symbols. -/
theorem keypad_scan_first_low (s : Nat → Nat) (pos : Nat) :
    ((∀ c, c < 4 → ∀ r, r < 4 → rowLow (s (pos + 4 * c + r)) r = false) →
      ∀ fuel, keypad_getkey_press_release_4x4 fuel s pos = some (0, pos + 16)) ∧
    (∀ c r, c < 4 → r < 4 → rowLow (s (pos + 4 * c + r)) r = true →
      (∀ c' r', c' < 4 → r' < 4 → (c' < c ∨ (c' = c ∧ r' < r)) →
        rowLow (s (pos + 4 * c' + r')) r' = false) →
      ∀ b, pos + 4 * c + r + 1 ≤ b →
        (∀ j, j < 4 → ∀ r', r' < 4 → rowLow (s (b + j)) r' = false) →
        ∀ fuel, b - (pos + 4 * c + r + 1) + 1 ≤ fuel →
          ∃ q, keypad_getkey_press_release_4x4 fuel s pos = some (keyAt r c, q)) ∧
    (∀ fuel k q, keypad_getkey_press_release_4x4 fuel s pos = some (k, q) →
      k = 0 ∨ (∃ r c, r < 4 ∧ c < 4 ∧ k = keyAt r c ∧
        k ∈ [49, 50, 51, 65, 52, 53, 54, 66, 55, 56, 57, 67, 42, 48, 35, 68])) := by
  refine ⟨?_, ?_, ?_⟩
  · intro h fuel
    have hc := colLoop_none fuel s 4 0 pos h
    simp only [keypad_getkey_press_release_4x4, hc]
  · intro c r hc hr hlow hfirst b hb hwin fuel hfuel
    have hcl := colLoop_hit fuel s 4 0 pos c r hc hr
      (fun c' hc' r' hr' => hfirst c' r' (by omega) hr' (Or.inl hc'))
      (fun r' hr' => hfirst c r' hc (by omega) (Or.inr ⟨rfl, hr'⟩)) hlow
    obtain ⟨q, hq⟩ := waitRelease_terminates s b hwin fuel (pos + 4 * c + r + 1) hb hfuel
    rw [hq, Nat.zero_add] at hcl
    exact ⟨q, by simp only [keypad_getkey_press_release_4x4, hcl]⟩
  · intro fuel k q h
    cases hcl : colLoop fuel s 4 0 pos with
    | none => simp [keypad_getkey_press_release_4x4, hcl] at h
    | some res =>
      obtain ⟨ok, p⟩ := res
      cases ok with
      | none =>
        simp only [keypad_getkey_press_release_4x4, hcl, Option.some.injEq,
          Prod.mk.injEq] at h
        exact Or.inl h.1.symm
      | some key =>
        simp only [keypad_getkey_press_release_4x4, hcl, Option.some.injEq,
          Prod.mk.injEq] at h
        obtain ⟨r', c', h1, _, h3, h4⟩ := colLoop_key fuel s 4 0 pos key p hcl
        have hk : k = keyAt r' c' := h.1 ▸ h4
        exact Or.inr ⟨r', c', h1, by omega, hk, hk ▸ keyAt_mem r' c' h1 (by omega)⟩

/-- Instance of C15: a press seen at read 10 (column 2, row 2) and released
from read 11 on returns keymap_4x4[2][2] = '9' (code 57). -/
theorem keypad_scan_first_low_witness :
    ∃ q, keypad_getkey_press_release_4x4 1 pressStream 0 = some (57, q) :=
  (keypad_scan_first_low pressStream 0).2.1 2 2 (by decide) (by decide) (by decide)
    (fun c' r' hc' hr' hlex => by
      interval_cases c' <;> interval_cases r' <;> first | decide | omega)
    11 (by decide)
    (fun j hj r' hr' => by interval_cases j <;> interval_cases r' <;> decide)
    1 (by decide)

/-- C16, the scan on a bounce: row 0 reads low on the first read of the sweep
(column 0) and every later sample reads all rows high, so a re-read of the row
after the debounce delay would read high; the scan still returns
keymap_4x4[0][0] = '1' (code 49), after five reads: the detection and the four
reads of the release test, none of them a confirming re-read of the low row. -/
theorem keypad_bounce_returns_key :
    rowLow (bounceStream 0) 0 = true ∧
    (∀ i r, 0 < i → r < 4 → rowLow (bounceStream i) r = false) ∧
    keypad_getkey_press_release_4x4 1 bounceStream 0 = some (49, 5) := by
  refine ⟨by decide, ?_, by decide⟩
  intro i r hi hr
  have e : bounceStream i = 0x1E := by
    simp only [bounceStream]
    rw [if_neg (by omega)]
  rw [e]
  interval_cases r <;> decide

end RelojAlarma
